import Mathlib

/-!
# tdx-api: bar resampling, window trimming and the adjusted-series fetcher

A shallow embedding of `src/web/server.go` and `src/web/server_api_extended.go`.

* Go's `time.Time` is modelled by `Time`: a Unix second count together with the UTC
  offset that the time's `Location` has at that instant. The calendar methods read the
  absolute second count of the `time` package, which wraps modulo `2^64`, and compute the
  proleptic Gregorian calendar from its day number. `time.Unix` builds its value in the
  process-local zone, a field of `Upstream`.
* `protocol.Price` and the volume are `int64`; they are modelled by `Int`, and the two
  `+=` of the resamplers wrap with `wrap64`.
* `protocol.KlineResp.Count` is a `uint16`; conversions to it reduce modulo `65536`.
* A Go result pair `(value, error)` is modelled by `Except Error value`.
* On the search path a Go `string` is the list of its bytes; `contains` is stated for
  lists over any element type.
* `protocol.IsStock`, the listings and the comparisons of `LastPrice` with zero are
  parameters (`Listing`); `handleBatchQuote` returns its response together with the
  calls of `client.GetQuote` that it made.
-/

namespace TdxApi

/-! ## Machine integers -/

/-- Two's-complement wrap of an integer to the `int64` range. -/
def wrap64 (x : Int) : Int := (x + 9223372036854775808) % 18446744073709551616 - 9223372036854775808

/-- Conversion `uint16(n)` of a non-negative length. -/
def toUint16 (n : Nat) : Nat := n % 65536

/-- Sum of a list of `int64` values, computed with wrapping `int64` additions. -/
def sum64 (xs : List Int) : Int := xs.foldl (fun acc v => wrap64 (acc + v)) 0

/-! ## `time.Time` -/

/-- A `time.Location`: the offset in seconds east of UTC that the zone has at each Unix
time. -/
abbrev Location := Int → Int

/-- A `time.Time`: the `int64` seconds since 1970-01-01T00:00:00Z, and the offset in
seconds east of UTC that the `Location` of the time has at that instant. -/
structure Time where
  unix : Int
  offset : Int
  deriving DecidableEq

namespace Time

/-- The location `time.UTC`. -/
def UTC : Location := fun _ => 0

/-- The location `time.FixedZone(name, offset)`. -/
def FixedZone (offset : Int) : Location := fun _ => offset

/-- Construct the time `time.Unix(sec, 0)` of a process whose local zone is `loc`. -/
def Unix (loc : Location) (sec : Int) : Time := ⟨sec, loc sec⟩

/-- The zero value of `time.Time`: January 1, year 1, 00:00:00 UTC. -/
def zero : Time := ⟨-62135596800, 0⟩

/-- The method `t.abs()`: the wall-clock seconds of the time counted from January 1 of
the absolute zero year `-292277022399` as a `uint64`; the sum wraps modulo `2^64`. The
constant is `unixToInternal + internalToAbsolute`. -/
def abs (t : Time) : Int :=
  (t.unix + t.offset + 9223372028715321600) % 18446744073709551616

/-- Day number since 1970-01-01 of an absolute second count; the absolute zero is
`106751991073094` days before 1970-01-01, a whole number of 400-year cycles before
January 1 of year 1. -/
def absDays (abs : Int) : Int := abs / 86400 - 106751991073094

/-- Day number of the wall clock of the time: whole days since 1970-01-01. -/
def days (t : Time) : Int := absDays t.abs

/-- The wall-clock seconds of the time lie in the span that `abs` covers without
wrapping: from January 1 of the year `-292277022399` on. -/
def InRange (t : Time) : Prop :=
  -9223372028715321600 ≤ t.unix + t.offset ∧ t.unix + t.offset < 9223372044994230016

/-- Year and zero-based day of the year (January 1 is `0`) of a day number, by the
cycle decomposition of `absDate`: 400-year, 100-year, 4-year and 1-year cycles counted
from January 1 of year 1, the day `719162` days before 1970-01-01. -/
def absDate (z : Int) : Int × Int :=
  let d := z + 719162
  let n400 := d / 146097
  let d := d - 146097 * n400
  let n100 := d / 36524
  let n100 := n100 - n100 / 4
  let d := d - 36524 * n100
  let n4 := d / 1461
  let d := d - 1461 * n4
  let n1 := d / 365
  let n1 := n1 - n1 / 4
  let d := d - 365 * n1
  (1 + 400 * n400 + 100 * n100 + 4 * n4 + n1, d)

/-- Calendar year of a day number. -/
def yearOfDays (z : Int) : Int := (absDate z).1

/-- Zero-based day of the calendar year of a day number. -/
def ydayOfDays (z : Int) : Int := (absDate z).2

/-- Leap-year test of the Gregorian calendar. -/
def isLeap (y : Int) : Bool := y % 4 == 0 && (y % 100 != 0 || y % 400 == 0)

/-- Days of a common year before each of the months February to December. -/
def daysBefore : List Int := [31, 59, 90, 120, 151, 181, 212, 243, 273, 304, 334]

/-- Calendar month `1..12` holding the zero-based day `day` of a common year: one more
than the number of month starts that the day has reached. -/
def monthOfDay (day : Int) : Int := 1 + (daysBefore.countP (fun e => decide (e ≤ day)) : Nat)

/-- Calendar month `1..12` holding the zero-based day `yday` of a year: in a leap year
day 59 is February 29 and the later days are shifted by one. -/
def monthOfYday (leap : Bool) (yday : Int) : Int :=
  if leap = true ∧ yday = 59 then 2
  else monthOfDay (if leap = true ∧ yday > 59 then yday - 1 else yday)

/-- Calendar month `1..12` of a day number. -/
def monthOfDays (z : Int) : Int := monthOfYday (isLeap (yearOfDays z)) (ydayOfDays z)

/-- The function `absWeekday`: day of the week of an absolute second count, Sunday =
`0`; the absolute zero was a Monday, and the sum is a `uint64`. -/
def absWeekday (abs : Int) : Int :=
  ((abs + 86400) % 18446744073709551616 % 604800) / 86400

/-- The method `t.Year()`. -/
def Year (t : Time) : Int := yearOfDays t.days

/-- The method `t.Month()`, `1..12`. -/
def Month (t : Time) : Int := monthOfDays t.days

/-- The method `t.ISOWeek()`: year and week number of the Thursday of the time's
Monday-based week. -/
def ISOWeek (t : Time) : Int × Int :=
  let d := 4 - absWeekday t.abs
  let d := if d = 4 then -3 else d
  let thursday := absDays ((t.abs + d * 86400) % 18446744073709551616)
  (yearOfDays thursday, ydayOfDays thursday / 7 + 1)

end Time

/-! ## `protocol.Kline` and `protocol.KlineResp` -/

/-- The fields of `protocol.Kline` that the server reads and writes. Prices, volume and
amount are `int64` values. -/
structure Kline where
  Last : Int
  Open : Int
  High : Int
  Low : Int
  Close : Int
  Volume : Int
  Amount : Int
  Time : Time
  deriving DecidableEq

/-- The response `protocol.KlineResp`: a `uint16` count and the bars. -/
structure KlineResp where
  Count : Nat
  List : List Kline
  deriving DecidableEq

/-! ## `convertToWeekKline` and `convertToMonthKline` (server.go) -/

/-- The helper `getISOWeek`: the week component of `t.ISOWeek()`. -/
def getISOWeek (t : Time) : Int := t.ISOWeek.2

/-- The struct literal that opens a new week or month from the bar `k`. -/
def newBucket (k : Kline) : Kline :=
  { Time := k.Time, Last := k.Last, Open := k.Open, High := k.High, Low := k.Low,
    Close := k.Close, Volume := k.Volume, Amount := k.Amount }

/-- The accumulation branch: fold the bar `k` into the bucket in progress. -/
def accumulate (cur k : Kline) : Kline :=
  let cur := if k.High > cur.High then { cur with High := k.High } else cur
  let cur := if k.Low < cur.Low ∨ cur.Low = 0 then { cur with Low := k.Low } else cur
  let cur := { cur with Close := k.Close }
  let cur := { cur with Volume := wrap64 (cur.Volume + k.Volume) }
  let cur := { cur with Amount := wrap64 (cur.Amount + k.Amount) }
  { cur with Time := k.Time }

/-- Local variables of the loop of `convertToWeekKline`. -/
structure WeekLoop where
  weekResp : List Kline
  currentWeek : Option Kline
  lastWeekDay : Time

/-- One iteration of the loop of `convertToWeekKline` on the bar `k`. -/
def weekLoopBody (st : WeekLoop) (k : Kline) : WeekLoop :=
  let year := k.Time.ISOWeek.1
  let week := k.Time.ISOWeek.2
  match st.currentWeek with
  | none =>
    { weekResp := st.weekResp, currentWeek := some (newBucket k), lastWeekDay := k.Time }
  | some cur =>
    if st.lastWeekDay.Year ≠ year ∨ getISOWeek st.lastWeekDay ≠ week then
      { weekResp := st.weekResp ++ [cur], currentWeek := some (newBucket k),
        lastWeekDay := k.Time }
    else
      { weekResp := st.weekResp, currentWeek := some (accumulate cur k),
        lastWeekDay := k.Time }

/-- The function `convertToWeekKline`. -/
def convertToWeekKline (dayKline : KlineResp) : KlineResp :=
  if dayKline.List.length = 0 then dayKline
  else
    let st := dayKline.List.foldl weekLoopBody ⟨[], none, Time.zero⟩
    let list := match st.currentWeek with
      | some cur => st.weekResp ++ [cur]
      | none => st.weekResp
    { List := list, Count := toUint16 list.length }

/-- The key `k.Time.Format("200601")`: the year followed by the two-digit month. Two
times have the same rendering exactly when their year and month agree, so the key is
kept as the pair. -/
def monthKey (t : Time) : Int × Int := (t.Year, t.Month)

/-- Local variables of the loop of `convertToMonthKline`; `lastMonthKey` is `none` for
the empty string it starts with. -/
structure MonthLoop where
  monthResp : List Kline
  currentMonth : Option Kline
  lastMonthKey : Option (Int × Int)

/-- One iteration of the loop of `convertToMonthKline` on the bar `k`. -/
def monthLoopBody (st : MonthLoop) (k : Kline) : MonthLoop :=
  let key := monthKey k.Time
  match st.currentMonth with
  | none =>
    { monthResp := st.monthResp, currentMonth := some (newBucket k), lastMonthKey := some key }
  | some cur =>
    if st.lastMonthKey ≠ some key then
      { monthResp := st.monthResp ++ [cur], currentMonth := some (newBucket k),
        lastMonthKey := some key }
    else
      { monthResp := st.monthResp, currentMonth := some (accumulate cur k),
        lastMonthKey := some key }

/-- The function `convertToMonthKline`. -/
def convertToMonthKline (dayKline : KlineResp) : KlineResp :=
  if dayKline.List.length = 0 then dayKline
  else
    let st := dayKline.List.foldl monthLoopBody ⟨[], none, none⟩
    let list := match st.currentMonth with
      | some cur => st.monthResp ++ [cur]
      | none => st.monthResp
    { List := list, Count := toUint16 list.length }

/-! ## Run decomposition of the resamplers -/

/-- The test of `convertToWeekKline` that keeps the bar at `cur` in the week of the
previous bar at `last`: the negation of
`lastWeekDay.Year() != year || getISOWeek(lastWeekDay) != week`. -/
def sameWeek (last cur : Time) : Bool :=
  !(decide (last.Year ≠ cur.ISOWeek.1) || decide (getISOWeek last ≠ cur.ISOWeek.2))

/-- The test of `convertToMonthKline` that keeps a bar in the month of the previous
bar: equal month keys. -/
def sameMonth (last cur : Time) : Bool := decide (monthKey last = monthKey cur)

/-- The bars still to be emitted when `cur` is the bucket in progress and `ks` are the
bars left to scan, for a loop whose bucket test is `same`. -/
def resampleFrom (same : Time → Time → Bool) (cur : Kline) : List Kline → List Kline
  | [] => [cur]
  | k :: ks =>
    if same cur.Time k.Time then resampleFrom same (accumulate cur k) ks
    else cur :: resampleFrom same (newBucket k) ks

/-- The bars of a resampler with bucket test `same`, for any input list. -/
def resample (same : Time → Time → Bool) : List Kline → List Kline
  | [] => []
  | k :: ks => resampleFrom same k ks

/-- The output bar of a run of bars: the first bar opens the bucket, the others are
accumulated in order. -/
def summarize : List Kline → Kline
  | [] => { Last := 0, Open := 0, High := 0, Low := 0, Close := 0, Volume := 0, Amount := 0,
            Time := Time.zero }
  | k :: ks => ks.foldl accumulate (newBucket k)

/-- The step of the low of a bucket: a running low of zero is replaced by the next low. -/
def lowStep (acc l : Int) : Int := if l < acc ∨ acc = 0 then l else acc

/-- The low of a run of bars as the left fold of `lowStep` seeded with the first low. -/
def lowOfRun : List Kline → Int
  | [] => 0
  | k :: ks => (ks.map Kline.Low).foldl lowStep k.Low

/-- Months counted from year 0: an order-preserving index of the month key. -/
def monthIdx (t : Time) : Int := 12 * t.Year + t.Month

/-- The ISO-8601 bucket key of a bar: week-numbering year and week number. -/
def isoKey (k : Kline) : Int × Int := k.Time.ISOWeek

/-- The calendar bucket key of a bar: year and month. -/
def barMonthKey (k : Kline) : Int × Int := monthKey k.Time

/-- A series is in non-decreasing time order. -/
def TimeOrdered (ks : List Kline) : Prop := ks.Pairwise (fun a b => a.Time.unix ≤ b.Time.unix)

/-! ## `getQfqKlineDay` (server.go) -/

/-- An error value; only its message is kept. -/
abbrev Error := String

/-- A daily record of `extend.GetTHSDayKline`: Unix date, prices, volume, amount. -/
structure THSKline where
  Date : Int
  Open : Int
  High : Int
  Low : Int
  Close : Int
  Volume : Int
  Amount : Int
  deriving DecidableEq

/-- The environment of the handlers: the process-local zone `time.Local`, the
front-adjusted daily source and the methods of the market-data client, each returning a
value or an error. -/
structure Upstream where
  Local : Location
  GetTHSDayKline : String → Except Error (List THSKline)
  GetKlineDay : String → Nat → Nat → Except Error KlineResp
  GetKlineMinute : String → Nat → Nat → Except Error KlineResp
  GetKline5Minute : String → Nat → Nat → Except Error KlineResp
  GetKline15Minute : String → Nat → Nat → Except Error KlineResp
  GetKline30Minute : String → Nat → Nat → Except Error KlineResp
  GetKlineHour : String → Nat → Nat → Except Error KlineResp
  GetIndex : String → String → Nat → Nat → Except Error KlineResp
  GetIndexWeekAll : String → Except Error KlineResp
  GetIndexMonthAll : String → Except Error KlineResp
  GetIndexDay : String → Nat → Nat → Except Error KlineResp

/-- The loop of `getQfqKlineDay` over the records `klines` left to convert, `prev` being
the record before them (`none` at index 0) and `loc` the process-local zone. -/
def qfqBars (loc : Location) (prev : Option THSKline) : List THSKline → List Kline
  | [] => []
  | k :: ks =>
    { Time := Time.Unix loc k.Date, Open := k.Open, High := k.High, Low := k.Low,
      Close := k.Close, Volume := k.Volume, Amount := k.Amount,
      Last := match prev with
        | some p => p.Close
        | none => 0 } :: qfqBars loc (some k) ks

/-- The function `getQfqKlineDay`: the front-adjusted series, or on its failure the
outcome of `client.GetKlineDay(code, 0, 800)`. -/
def getQfqKlineDay (up : Upstream) (code : String) : Except Error KlineResp :=
  match up.GetTHSDayKline code with
  | .error _ => up.GetKlineDay code 0 800
  | .ok klines =>
    .ok { Count := toUint16 klines.length, List := qfqBars up.Local none klines }

/-! ## Limit parsing and the history handlers (server_api_extended.go) -/

/-- Value of a decimal digit character. -/
def digitVal (c : Char) : Option Nat :=
  if 48 ≤ c.toNat ∧ c.toNat ≤ 57 then some (c.toNat - 48) else none

/-- Value of a string of decimal digits, read most significant digit first after `acc`. -/
def digitsVal (acc : Nat) : List Char → Option Nat
  | [] => some acc
  | c :: cs =>
    match digitVal c with
    | some d => digitsVal (acc * 10 + d) cs
    | none => none

/-- The integer a string denotes in decimal: an optional sign `+` or `-` and then one
or more digits; `none` for any other string. -/
def decimalValue (s : String) : Option Int :=
  let body (neg : Bool) (ds : List Char) : Option Int :=
    if ds = [] then none
    else (digitsVal 0 ds).map (fun n => if neg then -(n : Int) else (n : Int))
  match s.data with
  | [] => none
  | c :: cs =>
    if c = '-' then body true cs
    else if c = '+' then body false cs
    else body false (c :: cs)

/-- The function `strconv.Atoi` for a 64-bit `int`: the decimal value of the string, a
syntax error when the string denotes no integer and a range error when the value does not
fit the `int` type. -/
def Atoi (s : String) : Except Error Int :=
  match decimalValue s with
  | none => .error "invalid syntax"
  | some v =>
    if v < -9223372036854775808 ∨ 9223372036854775807 < v then .error "value out of range"
    else .ok v

/-- The limit block shared by `handleGetKlineHistory` and `handleGetIndex`: default 100,
at most 800. -/
def parseLimit (limitStr : String) : Nat :=
  let limit := toUint16 100
  if limitStr ≠ "" then
    match Atoi limitStr with
    | .ok l =>
      if l > 0 then
        let l := if l > 800 then 800 else l
        toUint16 l.toNat
      else limit
    | .error _ => limit
  else limit

/-- The tail trim of the stock-history path: keep the last `limit` bars. -/
def trimTail (resp : KlineResp) (limit : Nat) : KlineResp :=
  if resp.List.length > limit then
    { List := resp.List.drop (resp.List.length - limit), Count := limit }
  else resp

/-- The head trim of the index path: keep the first `limit` bars. -/
def trimHead (resp : KlineResp) (limit : Nat) : KlineResp :=
  if resp.List.length > limit then
    { List := resp.List.take limit, Count := limit }
  else resp

/-- The tail policy in the words of the specification: a series longer than `limit`
becomes its last `limit` bars in their order with count `limit`, any other series is
unchanged. -/
def IsTailTrim (s out : KlineResp) (limit : Nat) : Prop :=
  (limit < s.List.length →
    out.Count = limit ∧ out.List.length = limit ∧ ∃ front, s.List = front ++ out.List) ∧
  (s.List.length ≤ limit → out = s)

/-- The head policy in the words of the specification: a series longer than `limit`
becomes its first `limit` bars in their order with count `limit`, any other series is
unchanged. -/
def IsHeadTrim (s out : KlineResp) (limit : Nat) : Prop :=
  (limit < s.List.length →
    out.Count = limit ∧ out.List.length = limit ∧ ∃ back, s.List = out.List ++ back) ∧
  (s.List.length ≤ limit → out = s)

/-- The JSON envelope written by `successResponse` or `errorResponse`. -/
inductive Response where
  | success (data : KlineResp)
  | failure (message : String)
  deriving DecidableEq

/-- The end of both history handlers: an error is reported, a series is returned. -/
def respond (pre : String) (r : Except Error KlineResp) : Response :=
  match r with
  | .error e => .failure (pre ++ e)
  | .ok resp => .success resp

/-- The `switch klineType` of `handleGetKlineHistory` with the parsed `limit`. -/
def klineHistory (up : Upstream) (code klineType : String) (limit : Nat) :
    Except Error KlineResp :=
  if klineType = "minute1" then up.GetKlineMinute code 0 limit
  else if klineType = "minute5" then up.GetKline5Minute code 0 limit
  else if klineType = "minute15" then up.GetKline15Minute code 0 limit
  else if klineType = "minute30" then up.GetKline30Minute code 0 limit
  else if klineType = "hour" then up.GetKlineHour code 0 limit
  else if klineType = "week" then
    match getQfqKlineDay up code with
    | .ok resp => .ok (trimTail (convertToWeekKline resp) limit)
    | .error e => .error e
  else if klineType = "month" then
    match getQfqKlineDay up code with
    | .ok resp => .ok (trimTail (convertToMonthKline resp) limit)
    | .error e => .error e
  else
    match getQfqKlineDay up code with
    | .ok resp => .ok (trimTail resp limit)
    | .error e => .error e

/-- The handler `handleGetKlineHistory`. -/
def handleGetKlineHistory (up : Upstream) (code klineType limitStr : String) : Response :=
  if code = "" then .failure "股票代码不能为空"
  else respond "获取K线失败: " (klineHistory up code klineType (parseLimit limitStr))

/-- The `switch klineType` of `handleGetIndex` with the parsed `limit`. -/
def indexHistory (up : Upstream) (code klineType : String) (limit : Nat) :
    Except Error KlineResp :=
  if klineType = "minute1" then up.GetIndex "minute1" code 0 limit
  else if klineType = "minute5" then up.GetIndex "minute5" code 0 limit
  else if klineType = "minute15" then up.GetIndex "minute15" code 0 limit
  else if klineType = "minute30" then up.GetIndex "minute30" code 0 limit
  else if klineType = "hour" then up.GetIndex "minute60" code 0 limit
  else if klineType = "week" then
    match up.GetIndexWeekAll code with
    | .ok resp => .ok (trimHead resp limit)
    | .error e => .error e
  else if klineType = "month" then
    match up.GetIndexMonthAll code with
    | .ok resp => .ok (trimHead resp limit)
    | .error e => .error e
  else up.GetIndexDay code 0 limit

/-- The handler `handleGetIndex`. -/
def handleGetIndex (up : Upstream) (code klineType limitStr : String) : Response :=
  if code = "" then .failure "指数代码不能为空"
  else respond "获取指数数据失败: " (indexHistory up code klineType (parseLimit limitStr))

/-- A sample upstream: the local zone is the fixed offset of eight hours east of UTC,
the front-adjusted source answers `primary` and every method of the client answers
`client`. -/
def sampleUpstream (primary : Except Error (List THSKline)) (client : Except Error KlineResp) :
    Upstream :=
  { Local := Time.FixedZone 28800
    GetTHSDayKline := fun _ => primary
    GetKlineDay := fun _ _ _ => client
    GetKlineMinute := fun _ _ _ => client
    GetKline5Minute := fun _ _ _ => client
    GetKline15Minute := fun _ _ _ => client
    GetKline30Minute := fun _ _ _ => client
    GetKlineHour := fun _ _ _ => client
    GetIndex := fun _ _ _ _ => client
    GetIndexWeekAll := fun _ => client
    GetIndexMonthAll := fun _ => client
    GetIndexDay := fun _ _ _ => client }

/-- The front-adjusted records of `n` consecutive days from 1970-01-01, at noon UTC. -/
def sampleRecords (n : Nat) : List THSKline :=
  (List.range n).map (fun i => ⟨86400 * (i : Int) + 43200, 10, 12, 9, 11, 1, 10⟩)

/-- A daily bar at noon UTC of the given day number, read in UTC, all prices `p`, volume
`v`. -/
def bar (day p v : Int) : Kline :=
  { Last := 0, Open := p, High := p, Low := p, Close := p, Volume := v, Amount := v,
    Time := Time.Unix Time.UTC (day * 86400 + 43200) }

/-- A bar at the Unix time `sec` read at the UTC offset `off`, all prices `p`, volume
`v`. -/
def barAt (sec off p v : Int) : Kline :=
  { Last := 0, Open := p, High := p, Low := p, Close := p, Volume := v, Amount := v,
    Time := Time.Unix (Time.FixedZone off) sec }

/-- All bars of a series are read at the UTC offset `off`. -/
def FixedOffset (off : Int) (ks : List Kline) : Prop := ∀ b ∈ ks, b.Time.offset = off

/-- The wall clock of every bar of a series lies in the span that `Time.abs` covers
without wrapping. -/
def AllInRange (ks : List Kline) : Prop := ∀ b ∈ ks, b.Time.InRange

/-! ## `contains` and `handleSearchCode` (server.go) -/

/-- A Go `string` on the search path: its sequence of bytes. -/
abbrev GoString := List Nat

/-- The bytes of an ASCII string. -/
def ascii (s : String) : GoString := s.data.map Char.toNat

/-- The slice expression `s[lo:hi]`. -/
def slice {α : Type} (s : List α) (lo hi : Nat) : List α := (s.take hi).drop lo

/-- The function `contains`: the loop `for i := 0; i <= len(s)-len(substr); i++` that
returns `true` at the first `i` with `s[i:i+len(substr)] == substr` and `false` when it
ends. The bound is an `int` and may be negative. -/
def contains {α : Type} [DecidableEq α] (s substr : List α) : Bool :=
  let last : Int := (s.length : Int) - (substr.length : Int)
  (List.range (last + 1).toNat).any
    (fun i => decide (slice s i (i + substr.length) = substr))

/-- The three values of `protocol.Exchange` that the handlers visit. -/
inductive Exchange where
  | SH
  | SZ
  | BJ
  deriving DecidableEq

/-- An entry `protocol.Code` of a listing; `P` is the type of `LastPrice`. -/
structure Code (P : Type) where
  Name : GoString
  Code : GoString
  LastPrice : P

/-- The listing source: `client.GetCodeAll`, the predicate `protocol.IsStock`, and the
comparisons `LastPrice > 0` and `LastPrice < 0` of the price type. -/
structure Listing (P : Type) where
  GetCodeAll : Exchange → Except Error (List (Code P))
  IsStock : GoString → Bool
  gtZero : P → Bool
  ltZero : P → Bool

/-- An entry of the search result: the map with the keys `code` and `name`. -/
structure SearchHit where
  code : GoString
  name : GoString
  deriving DecidableEq

/-- The inner loop of `handleSearchCode` over the entries left in one listing, with the
`break` once `codes` holds 50 entries. -/
def searchPartition {P : Type} (src : Listing P) (keyword : GoString) :
    List SearchHit → List (Code P) → List SearchHit
  | codes, [] => codes
  | codes, v :: vs =>
    let codes :=
      if src.IsStock v.Code then
        if keyword.length > 0 then
          if contains v.Code keyword || contains v.Name keyword then
            codes ++ [⟨v.Code, v.Name⟩]
          else codes
        else codes
      else codes
    if codes.length ≥ 50 then codes else searchPartition src keyword codes vs

/-- The outer loop of `handleSearchCode` over the exchanges left to visit: a failed
listing is skipped, and the loop ends once `codes` holds 50 entries. -/
def searchExchanges {P : Type} (src : Listing P) (keyword : GoString) :
    List SearchHit → List Exchange → List SearchHit
  | codes, [] => codes
  | codes, ex :: exs =>
    match src.GetCodeAll ex with
    | .error _ => searchExchanges src keyword codes exs
    | .ok list =>
      let codes := searchPartition src keyword codes list
      if codes.length ≥ 50 then codes else searchExchanges src keyword codes exs

/-- The JSON envelope of a handler whose payload has the type `D`. -/
inductive Reply (D : Type) where
  | success (data : D)
  | failure (message : String)

/-- The handler `handleSearchCode`. -/
def handleSearchCode {P : Type} (src : Listing P) (keyword : GoString) :
    Reply (List SearchHit) :=
  if keyword = [] then .failure "搜索关键词不能为空"
  else .success (searchExchanges src keyword [] [.SH, .SZ, .BJ])

/-- The test that makes an entry a search hit for a keyword. -/
def isHit {P : Type} (src : Listing P) (keyword : GoString) (v : Code P) : Bool :=
  src.IsStock v.Code && (contains v.Code keyword || contains v.Name keyword)

/-- The hits of the listing of one exchange, none when its fetch fails. -/
def hitsOf {P : Type} (src : Listing P) (keyword : GoString) (ex : Exchange) :
    List SearchHit :=
  match src.GetCodeAll ex with
  | .error _ => []
  | .ok list => (list.filter (isHit src keyword)).map (fun v => ⟨v.Code, v.Name⟩)

/-! ## `handleGetMarketStats` and `handleBatchQuote` (server_api_extended.go) -/

/-- The four counters of one market in `MarketStats`. -/
structure Tally where
  Total : Nat
  Up : Nat
  Down : Nat
  Flat : Nat
  deriving DecidableEq

/-- The struct `MarketStats`; its `UpdateTime` is never written. -/
structure MarketStats where
  SH : Tally
  SZ : Tally
  BJ : Tally
  deriving DecidableEq

/-- One iteration of the counting loop of `handleGetMarketStats`. -/
def tallyStep {P : Type} (src : Listing P) (t : Tally) (code : Code P) : Tally :=
  if !src.IsStock code.Code then t
  else
    let t := { t with Total := t.Total + 1 }
    if src.gtZero code.LastPrice then { t with Up := t.Up + 1 }
    else if src.ltZero code.LastPrice then { t with Down := t.Down + 1 }
    else { t with Flat := t.Flat + 1 }

/-- One iteration of the loop of `handleGetMarketStats` over the exchanges. -/
def statsStep {P : Type} (src : Listing P) (stats : MarketStats) (ex : Exchange) :
    MarketStats :=
  match src.GetCodeAll ex with
  | .error _ => stats
  | .ok list =>
    let t := list.foldl (tallyStep src) ⟨0, 0, 0, 0⟩
    match ex with
    | .SH => { stats with SH := t }
    | .SZ => { stats with SZ := t }
    | .BJ => { stats with BJ := t }

/-- The handler `handleGetMarketStats`: the statistics it reports. -/
def handleGetMarketStats {P : Type} (src : Listing P) : MarketStats :=
  [Exchange.SH, Exchange.SZ, Exchange.BJ].foldl (statsStep src)
    ⟨⟨0, 0, 0, 0⟩, ⟨0, 0, 0, 0⟩, ⟨0, 0, 0, 0⟩⟩

/-- The counters reported for one exchange. -/
def MarketStats.of (stats : MarketStats) : Exchange → Tally
  | .SH => stats.SH
  | .SZ => stats.SZ
  | .BJ => stats.BJ

/-- A batch-quote request: the HTTP method and the outcome of decoding the JSON body
into the code list `req.Codes`. -/
structure BatchRequest where
  Method : String
  Body : Except Error (List String)

/-- The handler `handleBatchQuote`: its response and the list of the calls of
`client.GetQuote` that it made, each with its codes. -/
def handleBatchQuote {Q : Type} (GetQuote : List String → Except Error Q)
    (r : BatchRequest) : Reply Q × List (List String) :=
  if r.Method ≠ "POST" then (.failure "只支持POST请求", [])
  else
    match r.Body with
    | .error e => (.failure ("请求参数错误: " ++ e), [])
    | .ok codes =>
      if codes.length = 0 then (.failure "股票代码列表不能为空", [])
      else if codes.length > 50 then (.failure "一次最多查询50只股票", [])
      else
        match GetQuote codes with
        | .error e => (.failure ("获取行情失败: " ++ e), [codes])
        | .ok quotes => (.success quotes, [codes])

/-- A reply is a failure envelope. -/
def Reply.isFailure {D : Type} : Reply D → Bool
  | .success _ => false
  | .failure _ => true

/-- A sample listing source with integer prices: SH lists 60 stocks with the codes "60"
to "69" repeated and the prices -30 to 29, the SZ fetch fails, BJ lists one index entry.
A code is a stock when it starts with the byte of "6". -/
def sampleListing : Listing Int :=
  { GetCodeAll := fun ex =>
      match ex with
      | .SH => .ok ((List.range 60).map
          (fun i => ⟨ascii "bank", [54, 48 + i % 10], (i : Int) - 30⟩))
      | .SZ => .error "down"
      | .BJ => .ok [⟨ascii "index", ascii "899050", 5⟩]
    IsStock := fun c => decide (c.head? = some 54)
    gtZero := fun p => decide (p > 0)
    ltZero := fun p => decide (p < 0) }

/-! ## Sample evaluations -/

theorem calendar_samples :
    (Time.Unix Time.UTC 0).Year = 1970 ∧ (Time.Unix Time.UTC 0).Month = 1 ∧
    (Time.Unix Time.UTC 0).ISOWeek = (1970, 1) ∧
    Time.zero.Year = 1 ∧ Time.zero.Month = 1 ∧
    (Time.Unix Time.UTC (-1)).Year = 1969 ∧ (Time.Unix Time.UTC (-1)).Month = 12 ∧
    (Time.Unix Time.UTC 951782400).Month = 2 ∧ (Time.Unix Time.UTC 951868800).Month = 3 ∧
    (Time.Unix Time.UTC 1709164800).Month = 2 ∧ (Time.Unix Time.UTC 1709251200).Month = 3 ∧
    (Time.Unix Time.UTC 1609459200).ISOWeek = (2020, 53) ∧
    (Time.Unix Time.UTC 1704067200).ISOWeek = (2024, 1) ∧
    (Time.Unix Time.UTC 1735560000).Year = 2024 ∧
    (Time.Unix Time.UTC 1735560000).Month = 12 ∧
    (Time.Unix Time.UTC 1735560000).ISOWeek = (2025, 1) := by
  refine ⟨?_, ?_, ?_, ?_, ?_, ?_, ?_, ?_, ?_, ?_, ?_, ?_, ?_, ?_, ?_, ?_⟩ <;> decide

theorem zone_samples :
    (Time.Unix Time.UTC 1704643200).ISOWeek = (2024, 1) ∧
    (Time.Unix (Time.FixedZone 28800) 1704643200).ISOWeek = (2024, 2) ∧
    (Time.Unix Time.UTC 1706716800).Month = 1 ∧
    (Time.Unix (Time.FixedZone 28800) 1706716800).Month = 2 ∧
    (Time.Unix (Time.FixedZone (-18000)) 1704067200).Year = 2023 ∧
    (Time.Unix Time.UTC (-9223372036854775808)).Year = 292277026596 ∧
    (Time.Unix Time.UTC (-9223372036854775808)).Month = 12 ∧
    (Time.Unix Time.UTC 9223372036854775807).Year = 292277026596 ∧
    (Time.Unix Time.UTC 9223372036854775807).Month = 12 ∧
    (Time.Unix Time.UTC (-9223372028715321600)).Year = -292277022399 ∧
    (Time.Unix Time.UTC (-9223372028715321600)).Month = 1 ∧
    (Time.Unix Time.UTC (-9223372028715321601)).Year = 292277026854 := by
  refine ⟨?_, ?_, ?_, ?_, ?_, ?_, ?_, ?_, ?_, ?_, ?_, ?_⟩ <;> decide

theorem local_zone_week_samples :
    (convertToWeekKline ⟨2, qfqBars (Time.FixedZone 28800) none
      [⟨1704384000, 10, 12, 9, 11, 1, 10⟩, ⟨1704643200, 20, 22, 19, 21, 2, 20⟩]⟩).List.length
      = 2 ∧
    (convertToWeekKline ⟨2, qfqBars Time.UTC none
      [⟨1704384000, 10, 12, 9, 11, 1, 10⟩, ⟨1704643200, 20, 22, 19, 21, 2, 20⟩]⟩).List.length
      = 1 := by
  constructor <;> decide!

theorem parseLimit_samples :
    parseLimit "30" = 30 ∧ parseLimit "" = 100 ∧ parseLimit "abc" = 100 ∧
    parseLimit "-3" = 100 ∧ parseLimit "0" = 100 ∧ parseLimit "5000" = 800 ∧
    parseLimit "+7" = 7 ∧ parseLimit " 7" = 100 ∧ parseLimit "800" = 800 := by decide

theorem resample_samples :
    (convertToWeekKline ⟨3, [bar 19723 10 1, bar 19724 11 2, bar 19725 9 4]⟩).List =
      [{ Last := 0, Open := 10, High := 11, Low := 9, Close := 9, Volume := 7, Amount := 7,
         Time := Time.Unix Time.UTC (19725 * 86400 + 43200) }] ∧
    (convertToMonthKline ⟨2, [bar 20087 10 1, bar 20088 11 2]⟩).List.length = 1 := by
  constructor <;> decide!

theorem listing_samples :
    handleGetMarketStats sampleListing = ⟨⟨60, 29, 30, 1⟩, ⟨0, 0, 0, 0⟩, ⟨0, 0, 0, 0⟩⟩ ∧
    (hitsOf sampleListing (ascii "69") .SH).length = 6 ∧
    hitsOf sampleListing (ascii "8") .BJ = [] ∧
    contains (ascii "600000") (ascii "000") = true ∧
    contains (ascii "600000") (ascii "06") = false ∧
    contains (ascii "") (ascii "") = true := by
  refine ⟨?_, ?_, ?_, ?_, ?_, ?_⟩ <;> decide!

/-! ## Arithmetic of the wrapped sums -/

theorem wrap64_add_left (a b : Int) : wrap64 (wrap64 a + b) = wrap64 (a + b) := by
  unfold wrap64; omega

theorem wrap64_add_congr (a s t : Int) (h : wrap64 s = wrap64 t) :
    wrap64 (a + s) = wrap64 (a + t) := by
  unfold wrap64 at *; omega

theorem foldl_wrap64 (a : Int) (xs : List Int) :
    xs.foldl (fun acc v => wrap64 (acc + v)) (wrap64 a) = wrap64 (a + xs.sum) := by
  induction xs generalizing a with
  | nil => simp
  | cons x xs ih =>
    simp only [List.foldl_cons, List.sum_cons]
    rw [ih (wrap64 a + x), ← add_assoc]
    unfold wrap64; omega

theorem sum64_eq_wrap64_sum (xs : List Int) : sum64 xs = wrap64 xs.sum := by
  have h := foldl_wrap64 0 xs
  have h0 : wrap64 0 = 0 := by decide
  rw [h0, zero_add] at h
  exact h

/-! ## The loops as run decompositions -/

@[simp] theorem newBucket_eq (k : Kline) : newBucket k = k := rfl

@[simp] theorem accumulate_Time (cur k : Kline) : (accumulate cur k).Time = k.Time := rfl

@[simp] theorem accumulate_Close (cur k : Kline) : (accumulate cur k).Close = k.Close := rfl

@[simp] theorem accumulate_Open (cur k : Kline) : (accumulate cur k).Open = cur.Open := by
  unfold accumulate; simp only []; split_ifs <;> rfl

@[simp] theorem accumulate_Last (cur k : Kline) : (accumulate cur k).Last = cur.Last := by
  unfold accumulate; simp only []; split_ifs <;> rfl

@[simp] theorem accumulate_Volume (cur k : Kline) :
    (accumulate cur k).Volume = wrap64 (cur.Volume + k.Volume) := by
  unfold accumulate; simp only []; split_ifs <;> rfl

@[simp] theorem accumulate_Amount (cur k : Kline) :
    (accumulate cur k).Amount = wrap64 (cur.Amount + k.Amount) := by
  unfold accumulate; simp only []; split_ifs <;> rfl

@[simp] theorem accumulate_Low (cur k : Kline) :
    (accumulate cur k).Low = lowStep cur.Low k.Low := by
  unfold accumulate lowStep; simp only []; split_ifs <;> rfl

@[simp] theorem accumulate_High (cur k : Kline) :
    (accumulate cur k).High = max cur.High k.High := by
  unfold accumulate; simp only []; split_ifs <;> simp_all <;> omega

/-- The state reached by the week loop from a bucket in progress, read as the bars
that `resampleFrom` emits. -/
theorem weekLoop_eq (out : List Kline) (cur : Kline) (ks : List Kline) :
    (match (ks.foldl weekLoopBody ⟨out, some cur, cur.Time⟩).currentWeek with
      | some c => (ks.foldl weekLoopBody ⟨out, some cur, cur.Time⟩).weekResp ++ [c]
      | none => (ks.foldl weekLoopBody ⟨out, some cur, cur.Time⟩).weekResp)
      = out ++ resampleFrom sameWeek cur ks := by
  induction ks generalizing out cur with
  | nil => simp [resampleFrom]
  | cons k ks ih =>
    simp only [List.foldl_cons, resampleFrom]
    by_cases h : cur.Time.Year ≠ k.Time.ISOWeek.1 ∨ getISOWeek cur.Time ≠ k.Time.ISOWeek.2
    · have hs : sameWeek cur.Time k.Time = false := by simp [sameWeek]; tauto
      have hb : weekLoopBody ⟨out, some cur, cur.Time⟩ k = ⟨out ++ [cur], some k, k.Time⟩ := by
        simp only [weekLoopBody, if_pos h, newBucket_eq]
      rw [hb, hs, ih]; simp
    · have hs : sameWeek cur.Time k.Time = true := by simp [sameWeek]; tauto
      have hb : weekLoopBody ⟨out, some cur, cur.Time⟩ k =
          ⟨out, some (accumulate cur k), (accumulate cur k).Time⟩ := by
        simp only [weekLoopBody, if_neg h, accumulate_Time]
      rw [hb, hs, ih]; simp

theorem convertToWeekKline_nil (c : Nat) : convertToWeekKline ⟨c, []⟩ = ⟨c, []⟩ := rfl

theorem convertToWeekKline_cons (c : Nat) (k : Kline) (ks : List Kline) :
    convertToWeekKline ⟨c, k :: ks⟩ =
      ⟨toUint16 (resampleFrom sameWeek k ks).length, resampleFrom sameWeek k ks⟩ := by
  have h := weekLoop_eq [] k ks
  simp only [List.nil_append] at h
  simp only [convertToWeekKline, List.length_cons, Nat.succ_ne_zero, if_false, List.foldl_cons]
  have hb : weekLoopBody ⟨[], none, Time.zero⟩ k = ⟨[], some k, k.Time⟩ := rfl
  simp only [Nat.add_one_ne_zero, if_false, hb, h]

/-- The state reached by the month loop from a bucket in progress, read as the bars
that `resampleFrom` emits. -/
theorem monthLoop_eq (out : List Kline) (cur : Kline) (ks : List Kline) :
    (match (ks.foldl monthLoopBody ⟨out, some cur, some (monthKey cur.Time)⟩).currentMonth with
      | some c =>
        (ks.foldl monthLoopBody ⟨out, some cur, some (monthKey cur.Time)⟩).monthResp ++ [c]
      | none => (ks.foldl monthLoopBody ⟨out, some cur, some (monthKey cur.Time)⟩).monthResp)
      = out ++ resampleFrom sameMonth cur ks := by
  induction ks generalizing out cur with
  | nil => simp [resampleFrom]
  | cons k ks ih =>
    simp only [List.foldl_cons, resampleFrom]
    by_cases h : monthKey cur.Time = monthKey k.Time
    · have hs : sameMonth cur.Time k.Time = true := by simp [sameMonth, h]
      have hb : monthLoopBody ⟨out, some cur, some (monthKey cur.Time)⟩ k =
          ⟨out, some (accumulate cur k), some (monthKey (accumulate cur k).Time)⟩ := by
        simp [monthLoopBody, h]
      rw [hb, hs, ih]; simp
    · have hs : sameMonth cur.Time k.Time = false := by simp [sameMonth, h]
      have hb : monthLoopBody ⟨out, some cur, some (monthKey cur.Time)⟩ k =
          ⟨out ++ [cur], some k, some (monthKey k.Time)⟩ := by
        simp [monthLoopBody, h]
      rw [hb, hs, ih]; simp

theorem convertToMonthKline_nil (c : Nat) : convertToMonthKline ⟨c, []⟩ = ⟨c, []⟩ := rfl

theorem convertToMonthKline_cons (c : Nat) (k : Kline) (ks : List Kline) :
    convertToMonthKline ⟨c, k :: ks⟩ =
      ⟨toUint16 (resampleFrom sameMonth k ks).length, resampleFrom sameMonth k ks⟩ := by
  have h := monthLoop_eq [] k ks
  simp only [List.nil_append] at h
  simp only [convertToMonthKline, List.length_cons, List.foldl_cons]
  have hb : monthLoopBody ⟨[], none, none⟩ k = ⟨[], some k, some (monthKey k.Time)⟩ := rfl
  simp only [Nat.add_one_ne_zero, if_false, hb, h]

theorem convertToWeekKline_List (r : KlineResp) :
    (convertToWeekKline r).List = resample sameWeek r.List := by
  obtain ⟨c, l⟩ := r
  cases l with
  | nil => rfl
  | cons k ks => rw [convertToWeekKline_cons]; rfl

theorem convertToMonthKline_List (r : KlineResp) :
    (convertToMonthKline r).List = resample sameMonth r.List := by
  obtain ⟨c, l⟩ := r
  cases l with
  | nil => rfl
  | cons k ks => rw [convertToMonthKline_cons]; rfl

theorem resampleFrom_ne_nil (same : Time → Time → Bool) (cur : Kline) (ks : List Kline) :
    resampleFrom same cur ks ≠ [] := by
  induction ks generalizing cur with
  | nil => simp [resampleFrom]
  | cons k ks ih =>
    simp only [resampleFrom]
    split_ifs
    · exact ih _
    · simp

theorem summarize_snoc (g : List Kline) (a b : Kline) :
    summarize (g ++ [a] ++ [b]) = accumulate (summarize (g ++ [a])) b := by
  cases g with
  | nil => simp [summarize]
  | cons x g => simp [summarize, List.foldl_append]

theorem summarize_Time (g : List Kline) (a : Kline) : (summarize (g ++ [a])).Time = a.Time := by
  cases g with
  | nil => simp [summarize]
  | cons x g => simp [summarize, List.foldl_append]

theorem splitByLoop_append {α : Type} (r : α → α → Bool) (l : List α) (a : α) (g : List α)
    (gs : List (List α)) :
    List.splitBy.loop r l a g gs = gs.reverse ++ List.splitBy.loop r l a g [] := by
  induction l generalizing a g gs with
  | nil => simp [List.splitBy.loop]
  | cons b l ih =>
    simp only [List.splitBy.loop]
    split
    · exact ih _ _ _
    · rw [ih, ih b [] [_]]; simp

/-- The bars emitted from a bucket in progress are the summaries of the runs that
`List.splitBy` cuts with the bucket test on adjacent bars. -/
theorem resampleFrom_eq_splitBy (same : Time → Time → Bool) (l : List Kline) (a : Kline)
    (g : List Kline) :
    resampleFrom same (summarize (g.reverse ++ [a])) l =
      (List.splitBy.loop (fun x y => same x.Time y.Time) l a g []).map summarize := by
  induction l generalizing a g with
  | nil => simp [resampleFrom, List.splitBy.loop]
  | cons b l ih =>
    simp only [resampleFrom, List.splitBy.loop, summarize_Time]
    cases h : same a.Time b.Time with
    | true =>
      simp only [if_true]
      rw [← summarize_snoc, ← ih b (a :: g)]
      simp
    | false =>
      simp only [Bool.false_eq_true, if_false, newBucket_eq]
      rw [splitByLoop_append]
      have h2 := ih b []
      simp only [List.reverse_nil, List.nil_append, summarize, List.foldl_nil,
        newBucket_eq] at h2
      simp [← h2]

theorem resample_eq_splitBy (same : Time → Time → Bool) (l : List Kline) :
    resample same l = (l.splitBy (fun x y => same x.Time y.Time)).map summarize := by
  cases l with
  | nil => rfl
  | cons k ks =>
    have h := resampleFrom_eq_splitBy same ks k []
    simp only [List.reverse_nil, List.nil_append] at h
    simpa [resample, summarize, List.splitBy] using h

theorem foldl_accumulate_Low (c : Kline) (ks : List Kline) :
    (ks.foldl accumulate c).Low = (ks.map Kline.Low).foldl lowStep c.Low := by
  induction ks generalizing c with
  | nil => rfl
  | cons k ks ih => simp [ih]

theorem summarize_Low (run : List Kline) (h : run ≠ []) : (summarize run).Low = lowOfRun run := by
  cases run with
  | nil => exact absurd rfl h
  | cons k ks => simp [summarize, lowOfRun, foldl_accumulate_Low]

/-! ## Conservation of volume and amount -/

theorem resampleFrom_sum (same : Time → Time → Bool) (f : Kline → Int)
    (hf : ∀ c k, f (accumulate c k) = wrap64 (f c + f k)) (cur : Kline) (ks : List Kline) :
    wrap64 ((resampleFrom same cur ks).map f).sum = wrap64 (f cur + (ks.map f).sum) := by
  induction ks generalizing cur with
  | nil => simp [resampleFrom]
  | cons k ks ih =>
    simp only [resampleFrom, List.map_cons, List.sum_cons]
    split_ifs
    · rw [ih, hf, ← add_assoc]
      unfold wrap64; omega
    · simp only [List.map_cons, List.sum_cons]
      exact wrap64_add_congr _ _ _ (ih k)

theorem resample_sum64 (same : Time → Time → Bool) (f : Kline → Int)
    (hf : ∀ c k, f (accumulate c k) = wrap64 (f c + f k)) (l : List Kline) :
    sum64 ((resample same l).map f) = sum64 (l.map f) := by
  rw [sum64_eq_wrap64_sum, sum64_eq_wrap64_sum]
  cases l with
  | nil => rfl
  | cons k ks => simpa [resample] using resampleFrom_sum same f hf k ks

/-! ## The last bucket -/

theorem resampleFrom_last (same : Time → Time → Bool) (cur : Kline) (ks : List Kline)
    (k : Kline) :
    ∃ pre b, resampleFrom same cur (ks ++ [k]) = pre ++ [b] ∧ b.Time = k.Time ∧
      b.Close = k.Close := by
  induction ks generalizing cur with
  | nil =>
    simp only [List.nil_append, resampleFrom]
    split_ifs
    · exact ⟨[], accumulate cur k, rfl, rfl, rfl⟩
    · exact ⟨[cur], k, rfl, rfl, rfl⟩
  | cons x ks ih =>
    simp only [List.cons_append, resampleFrom]
    split_ifs
    · exact ih _
    · obtain ⟨pre, b, h, ht, hc⟩ := ih (newBucket x)
      exact ⟨cur :: pre, b, congrArg (cur :: ·) h, ht, hc⟩

theorem resample_last (same : Time → Time → Bool) (ks : List Kline) (k : Kline) :
    ∃ pre b, resample same (ks ++ [k]) = pre ++ [b] ∧ b.Time = k.Time ∧ b.Close = k.Close := by
  cases ks with
  | nil => exact ⟨[], k, rfl, rfl, rfl⟩
  | cons x ks => exact resampleFrom_last same x ks k

/-! ## The calendar is monotone in time -/

theorem absDate_decomp (z : Int) :
    ∃ a b c e yd : Int,
      z + 719162 = 146097 * a + 36524 * b + 1461 * c + 365 * e + yd ∧
      Time.absDate z = (1 + 400 * a + 100 * b + 4 * c + e, yd) ∧
      0 ≤ b ∧ b ≤ 3 ∧ 0 ≤ c ∧ c ≤ 24 ∧ 0 ≤ e ∧ e ≤ 3 ∧ 0 ≤ yd ∧ yd ≤ 365 ∧
      1461 * c + 365 * e + yd ≤ 36524 ∧
      36524 * b + 1461 * c + 365 * e + yd ≤ 146096 ∧
      (b < 3 → 1461 * c + 365 * e + yd ≤ 36523) ∧ 365 * e + yd ≤ 1460 ∧
      (e < 3 → yd ≤ 364) := by
  refine ⟨(z + 719162) / 146097, _, _, _, _, ?_, rfl, ?_⟩
  · omega
  · refine ⟨?_, ?_, ?_, ?_, ?_, ?_, ?_, ?_, ?_, ?_, ?_, ?_, ?_⟩ <;> omega

theorem cycles_lex (a b c e yd a' b' c' e' yd' : Int)
    (h : 146097 * a + 36524 * b + 1461 * c + 365 * e + yd ≤
      146097 * a' + 36524 * b' + 1461 * c' + 365 * e' + yd')
    (hb0 : 0 ≤ b) (hb3 : b ≤ 3) (hc0 : 0 ≤ c) (hc : c ≤ 24) (he0 : 0 ≤ e) (he3 : e ≤ 3)
    (hy0 : 0 ≤ yd) (h400 : 36524 * b + 1461 * c + 365 * e + yd ≤ 146096)
    (hb0' : 0 ≤ b') (hb3' : b' ≤ 3) (hc0' : 0 ≤ c') (hc' : c' ≤ 24) (he0' : 0 ≤ e')
    (he3' : e' ≤ 3) (hy0' : 0 ≤ yd') (hy' : yd' ≤ 365)
    (h100 : 1461 * c' + 365 * e' + yd' ≤ 36524)
    (h400' : 36524 * b' + 1461 * c' + 365 * e' + yd' ≤ 146096)
    (h100' : b' < 3 → 1461 * c' + 365 * e' + yd' ≤ 36523) (h4' : 365 * e' + yd' ≤ 1460)
    (hey' : e' < 3 → yd' ≤ 364) :
    1 + 400 * a + 100 * b + 4 * c + e < 1 + 400 * a' + 100 * b' + 4 * c' + e' ∨
    (1 + 400 * a + 100 * b + 4 * c + e = 1 + 400 * a' + 100 * b' + 4 * c' + e' ∧
      yd ≤ yd') := by
  rcases lt_trichotomy a a' with ha | ha | ha
  · left; omega
  · subst ha
    rcases lt_trichotomy b b' with hb | hb | hb
    · left; omega
    · subst hb
      rcases lt_trichotomy c c' with hcc | hcc | hcc
      · left; omega
      · subst hcc
        rcases lt_trichotomy e e' with hee | hee | hee
        · left; omega
        · subst hee; right; omega
        · exfalso; omega
      · exfalso; omega
    · exfalso; omega
  · exfalso; omega

/-- Year and day of the year grow lexicographically with the day number. -/
theorem absDate_mono (z1 z2 : Int) (h : z1 ≤ z2) :
    Time.yearOfDays z1 < Time.yearOfDays z2 ∨
      (Time.yearOfDays z1 = Time.yearOfDays z2 ∧ Time.ydayOfDays z1 ≤ Time.ydayOfDays z2) := by
  obtain ⟨a, b, c, e, yd, hz, hd, hb0, hb3, hc0, hc, he0, he3, hy0, -, -, h400, -, -, -⟩ :=
    absDate_decomp z1
  obtain ⟨a', b', c', e', yd', hz', hd', hb0', hb3', hc0', hc', he0', he3', hy0', hy', h100,
    h400', h100', h4', hey'⟩ := absDate_decomp z2
  simp only [Time.yearOfDays, Time.ydayOfDays, hd, hd']
  exact cycles_lex a b c e yd a' b' c' e' yd' (by omega) hb0 hb3 hc0 hc he0 he3 hy0 h400
    hb0' hb3' hc0' hc' he0' he3' hy0' hy' h100 h400' h100' h4' hey'

theorem monthOfDay_bounds (y : Int) : 1 ≤ Time.monthOfDay y ∧ Time.monthOfDay y ≤ 12 := by
  unfold Time.monthOfDay
  have h : Time.daysBefore.countP (fun e => decide (e ≤ y)) ≤ Time.daysBefore.length :=
    List.countP_le_length _
  have h2 : Time.daysBefore.length = 11 := rfl
  omega

theorem monthOfDay_mono (d1 d2 : Int) (h : d1 ≤ d2) :
    Time.monthOfDay d1 ≤ Time.monthOfDay d2 := by
  unfold Time.monthOfDay
  have : Time.daysBefore.countP (fun e => decide (e ≤ d1)) ≤
      Time.daysBefore.countP (fun e => decide (e ≤ d2)) := by
    apply List.countP_mono_left
    intro x _ hx
    simp only [decide_eq_true_eq] at hx ⊢
    omega
  omega

theorem monthOfDay_58 : Time.monthOfDay 58 = 2 := by decide

theorem monthOfYday_bounds (leap : Bool) (y : Int) :
    1 ≤ Time.monthOfYday leap y ∧ Time.monthOfYday leap y ≤ 12 := by
  unfold Time.monthOfYday
  split_ifs
  · omega
  · exact monthOfDay_bounds _
  · exact monthOfDay_bounds _

theorem monthOfYday_mono (leap : Bool) (y1 y2 : Int) (h : y1 ≤ y2) :
    Time.monthOfYday leap y1 ≤ Time.monthOfYday leap y2 := by
  have h58 := monthOfDay_58
  cases leap with
  | false => simpa [Time.monthOfYday] using monthOfDay_mono y1 y2 h
  | true =>
    have e : ∀ y, Time.monthOfYday true y =
        if y = 59 then 2 else Time.monthOfDay (if y > 59 then y - 1 else y) := by
      intro y; simp [Time.monthOfYday]
    rw [e, e]
    split_ifs
    all_goals first
      | omega
      | exact monthOfDay_mono _ _ (by omega)
      | exact le_of_le_of_eq (monthOfDay_mono _ _ (by omega)) h58
      | exact le_of_eq_of_le h58.symm (monthOfDay_mono _ _ (by omega))

theorem Month_bounds (t : Time) : 1 ≤ t.Month ∧ t.Month ≤ 12 := monthOfYday_bounds _ _

theorem monthIdx_mono (t1 t2 : Time) (h : t1.unix + t1.offset ≤ t2.unix + t2.offset)
    (r1 : t1.InRange) (r2 : t2.InRange) : monthIdx t1 ≤ monthIdx t2 := by
  have hd : t1.days ≤ t2.days := by
    unfold Time.InRange at r1 r2
    unfold Time.days Time.absDays Time.abs
    omega
  have b1 := Month_bounds t1
  have b2 := Month_bounds t2
  rcases absDate_mono _ _ hd with hy | ⟨hy, hyd⟩
  · have : t1.Year < t2.Year := hy
    unfold monthIdx; omega
  · have hY : t1.Year = t2.Year := hy
    have hm : t1.Month ≤ t2.Month := by
      unfold Time.Month Time.monthOfDays
      rw [hy]
      exact monthOfYday_mono _ _ _ hyd
    unfold monthIdx; omega

theorem monthIdx_eq_iff (t1 t2 : Time) : monthIdx t1 = monthIdx t2 ↔ monthKey t1 = monthKey t2 := by
  have b1 := Month_bounds t1
  have b2 := Month_bounds t2
  unfold monthIdx monthKey
  constructor
  · intro h
    have hy : t1.Year = t2.Year := by omega
    have hm : t1.Month = t2.Month := by omega
    rw [hy, hm]
  · intro h
    have hy : t1.Year = t2.Year := (Prod.mk.inj h).1
    have hm : t1.Month = t2.Month := (Prod.mk.inj h).2
    rw [hy, hm]

/-! ## One bar per month -/

theorem sameMonth_iff (a b : Time) : sameMonth a b = true ↔ monthIdx a = monthIdx b := by
  rw [monthIdx_eq_iff]; simp [sameMonth]

/-- On a series ordered by month index the month loop emits bars with strictly
increasing month index, and the month keys it emits are those of the input. -/
theorem resampleFrom_month_keys (cur : Kline) (ks : List Kline)
    (hs : (cur :: ks).Pairwise (fun a b => monthIdx a.Time ≤ monthIdx b.Time)) :
    (resampleFrom sameMonth cur ks).Pairwise (fun a b => monthIdx a.Time < monthIdx b.Time) ∧
    ∀ x, x ∈ (resampleFrom sameMonth cur ks).map barMonthKey ↔
      x ∈ (cur :: ks).map barMonthKey := by
  induction ks generalizing cur with
  | nil => simp [resampleFrom]
  | cons k ks ih =>
    rw [List.pairwise_cons] at hs
    obtain ⟨hcur, hrest⟩ := hs
    simp only [resampleFrom]
    by_cases h : sameMonth cur.Time k.Time = true
    · simp only [h, if_true]
      have hidx := (sameMonth_iff _ _).1 h
      have hkey : barMonthKey cur = barMonthKey k := (monthIdx_eq_iff _ _).1 hidx
      have hs' : ((accumulate cur k) :: ks).Pairwise
          (fun a b => monthIdx a.Time ≤ monthIdx b.Time) := by
        rw [List.pairwise_cons] at hrest ⊢
        exact ⟨fun b hb => by rw [accumulate_Time]; exact hrest.1 b hb, hrest.2⟩
      obtain ⟨h1, h2⟩ := ih (accumulate cur k) hs'
      refine ⟨h1, fun x => ?_⟩
      rw [h2]
      have hacc : barMonthKey (accumulate cur k) = barMonthKey k := rfl
      simp only [List.map_cons, List.mem_cons, hacc, hkey]
      tauto
    · have hf : sameMonth cur.Time k.Time = false := by simpa using h
      simp only [hf, Bool.false_eq_true, if_false, newBucket_eq]
      have hne : monthIdx cur.Time ≠ monthIdx k.Time := fun e => h ((sameMonth_iff _ _).2 e)
      have hlt : monthIdx cur.Time < monthIdx k.Time :=
        lt_of_le_of_ne (hcur k (List.mem_cons_self _ _)) hne
      obtain ⟨h1, h2⟩ := ih k hrest
      refine ⟨?_, fun x => ?_⟩
      · rw [List.pairwise_cons]
        refine ⟨fun y hy => ?_, h1⟩
        have hy' : barMonthKey y ∈ (k :: ks).map barMonthKey :=
          (h2 _).1 (List.mem_map_of_mem _ hy)
        obtain ⟨z, hz, hzy⟩ := List.mem_map.1 hy'
        have hzi : monthIdx z.Time = monthIdx y.Time := (monthIdx_eq_iff _ _).2 hzy
        have hkz : monthIdx k.Time ≤ monthIdx z.Time := by
          rcases List.mem_cons.1 hz with e | e
          · rw [e]
          · exact (List.pairwise_cons.1 hrest).1 z e
        omega
      · simp only [List.map_cons, List.mem_cons]
        rw [h2]
        simp only [List.map_cons, List.mem_cons]

theorem timeOrdered_monthIdx (l : List Kline) (off : Int) (h : TimeOrdered l)
    (hz : FixedOffset off l) (hr : AllInRange l) :
    l.Pairwise (fun a b => monthIdx a.Time ≤ monthIdx b.Time) := by
  refine List.Pairwise.imp_of_mem ?_ h
  intro a b ha hb hab
  refine monthIdx_mono _ _ ?_ (hr a ha) (hr b hb)
  rw [hz a ha, hz b hb]
  omega

theorem resample_month_keys (l : List Kline) (off : Int) (h : TimeOrdered l)
    (hz : FixedOffset off l) (hr : AllInRange l) :
    ((resample sameMonth l).map barMonthKey).Nodup ∧
    ∀ x, x ∈ (resample sameMonth l).map barMonthKey ↔ x ∈ l.map barMonthKey := by
  cases l with
  | nil => simp [resample]
  | cons k ks =>
    obtain ⟨h1, h2⟩ := resampleFrom_month_keys k ks (timeOrdered_monthIdx _ off h hz hr)
    refine ⟨?_, h2⟩
    rw [List.Nodup, List.pairwise_map]
    refine List.Pairwise.imp ?_ h1
    intro a b hab e
    have := (monthIdx_eq_iff a.Time b.Time).2 e
    omega

/-! ## Count and length on the stock-history path -/

theorem qfqBars_length (loc : Location) (prev : Option THSKline) (ks : List THSKline) :
    (qfqBars loc prev ks).length = ks.length := by
  induction ks generalizing prev with
  | nil => rfl
  | cons k ks ih => simp [qfqBars, ih]

theorem trimTail_sync (s : KlineResp) (limit : Nat) (hs : s.Count = toUint16 s.List.length)
    (h : limit ≤ 800) :
    (trimTail s limit).List.length ≤ limit ∧
      (trimTail s limit).Count = (trimTail s limit).List.length := by
  unfold trimTail
  split_ifs with hl
  · simp only [List.length_drop]; omega
  · refine ⟨by omega, ?_⟩
    rw [hs]; unfold toUint16; omega

theorem convertToWeekKline_sync (r : KlineResp) (hr : r.Count = toUint16 r.List.length) :
    (convertToWeekKline r).Count = toUint16 (convertToWeekKline r).List.length := by
  obtain ⟨c, l⟩ := r
  cases l with
  | nil => exact hr
  | cons k ks => rw [convertToWeekKline_cons]

theorem convertToMonthKline_sync (r : KlineResp) (hr : r.Count = toUint16 r.List.length) :
    (convertToMonthKline r).Count = toUint16 (convertToMonthKline r).List.length := by
  obtain ⟨c, l⟩ := r
  cases l with
  | nil => exact hr
  | cons k ks => rw [convertToMonthKline_cons]

/-! ## Claims -/

/-- C1 (code bug): `convertToWeekKline` compares the calendar year of the previous bar
with the ISO week-numbering year of the current bar. The two ordered daily bars of
2024-12-30 and 2024-12-31 lie in the one ISO week (2025, 1), yet the function returns
two bars, both with the key (2025, 1). -/
theorem C1_week_split_at_year_boundary :
    TimeOrdered [bar 20087 10 1, bar 20088 11 2] ∧
    ([bar 20087 10 1, bar 20088 11 2].map isoKey).dedup.length = 1 ∧
    (convertToWeekKline ⟨2, [bar 20087 10 1, bar 20088 11 2]⟩).List.length = 2 ∧
    (convertToWeekKline ⟨2, [bar 20087 10 1, bar 20088 11 2]⟩).List.map isoKey =
      [(2025, 1), (2025, 1)] ∧
    (bar 20087 10 1).Time.Year = 2024 ∧ (bar 20088 11 2).Time.Year = 2024 := by
  refine ⟨?_, ?_, ?_, ?_, ?_, ?_⟩
  · unfold TimeOrdered; decide
  · decide
  · decide
  · decide
  · decide
  · decide

/-- C2: the bars returned by `convertToWeekKline` have the same `int64` volume sum and
the same `int64` amount sum as the input bars. -/
theorem C2_week_conserves_volume_amount (r : KlineResp) :
    sum64 ((convertToWeekKline r).List.map Kline.Volume) = sum64 (r.List.map Kline.Volume) ∧
    sum64 ((convertToWeekKline r).List.map Kline.Amount) = sum64 (r.List.map Kline.Amount) := by
  rw [convertToWeekKline_List]
  exact ⟨resample_sum64 _ _ accumulate_Volume _, resample_sum64 _ _ accumulate_Amount _⟩

/-- C3: for a non-empty series, written `ks ++ [k]`, the outputs of `convertToWeekKline`
and of `convertToMonthKline` end with a bar that has the time and the close of the last
input bar `k`; and three daily bars dated 2024-01-01, 2024-01-02 and 2024-01-03 (noon
UTC) resample
under week to exactly one bar, whose volume is the `int64` sum of the three volumes. -/
theorem C3_tail_bucket_kept :
    (∀ (c : Nat) (ks : List Kline) (k : Kline), ∃ pre b,
      (convertToWeekKline ⟨c, ks ++ [k]⟩).List = pre ++ [b] ∧ b.Time = k.Time ∧
        b.Close = k.Close) ∧
    (∀ (c : Nat) (ks : List Kline) (k : Kline), ∃ pre b,
      (convertToMonthKline ⟨c, ks ++ [k]⟩).List = pre ++ [b] ∧ b.Time = k.Time ∧
        b.Close = k.Close) ∧
    (∀ b1 b2 b3 : Kline, ∃ b,
      convertToWeekKline ⟨3, [{ b1 with Time := Time.Unix Time.UTC 1704110400 },
        { b2 with Time := Time.Unix Time.UTC 1704196800 },
        { b3 with Time := Time.Unix Time.UTC 1704283200 }]⟩
        = ⟨1, [b]⟩ ∧
      b.Volume = sum64 [b1.Volume, b2.Volume, b3.Volume] ∧
      b.Time = Time.Unix Time.UTC 1704283200 ∧ b.Close = b3.Close) := by
  refine ⟨?_, ?_, ?_⟩
  · intro c ks k
    rw [convertToWeekKline_List]
    exact resample_last _ ks k
  · intro c ks k
    rw [convertToMonthKline_List]
    exact resample_last _ ks k
  · intro b1 b2 b3
    have h12 : sameWeek (Time.Unix Time.UTC 1704110400) (Time.Unix Time.UTC 1704196800) =
        true := by decide
    have h23 : sameWeek (Time.Unix Time.UTC 1704196800) (Time.Unix Time.UTC 1704283200) =
        true := by decide
    refine ⟨accumulate (accumulate { b1 with Time := Time.Unix Time.UTC 1704110400 }
      { b2 with Time := Time.Unix Time.UTC 1704196800 })
      { b3 with Time := Time.Unix Time.UTC 1704283200 },
      ?_, ?_, ?_, ?_⟩
    · rw [convertToWeekKline_cons]
      simp only [resampleFrom, accumulate_Time, h12, h23, if_true, List.length_singleton]
      rfl
    · simp only [accumulate_Volume, sum64, List.foldl]
      unfold wrap64; omega
    · rfl
    · rfl

/-- C4 (counterexample): two series in non-decreasing time order for which
`convertToMonthKline` returns three bars although the input has two distinct (year,
month) keys, the first and the last bar having the same key. In the first series, read in
UTC, the Unix times are the least `int64`, 0 and the greatest `int64`: the absolute
second count wraps, and both extremes fall in December of the year 292277026596. In the
second series the bars are read at different UTC offsets: the wall clocks show February
1, then January 31, then February 1 of 2024. -/
theorem C4_month_repeated_key_counterexample :
    (TimeOrdered [barAt (-9223372036854775808) 0 10 1, barAt 0 0 11 2,
        barAt 9223372036854775807 0 12 3] ∧
      (convertToMonthKline ⟨3, [barAt (-9223372036854775808) 0 10 1, barAt 0 0 11 2,
        barAt 9223372036854775807 0 12 3]⟩).List.map barMonthKey =
        [(292277026596, 12), (1970, 1), (292277026596, 12)] ∧
      ([barAt (-9223372036854775808) 0 10 1, barAt 0 0 11 2,
        barAt 9223372036854775807 0 12 3].map barMonthKey).dedup.length = 2 ∧
      ¬ ((convertToMonthKline ⟨3, [barAt (-9223372036854775808) 0 10 1, barAt 0 0 11 2,
        barAt 9223372036854775807 0 12 3]⟩).List.map barMonthKey).Nodup) ∧
    (TimeOrdered [barAt 1706743800 3600 10 1, barAt 1706745600 (-3600) 11 2,
        barAt 1706788800 3600 12 3] ∧
      (convertToMonthKline ⟨3, [barAt 1706743800 3600 10 1, barAt 1706745600 (-3600) 11 2,
        barAt 1706788800 3600 12 3]⟩).List.map barMonthKey =
        [(2024, 2), (2024, 1), (2024, 2)] ∧
      ([barAt 1706743800 3600 10 1, barAt 1706745600 (-3600) 11 2,
        barAt 1706788800 3600 12 3].map barMonthKey).dedup.length = 2 ∧
      ¬ ((convertToMonthKline ⟨3, [barAt 1706743800 3600 10 1, barAt 1706745600 (-3600) 11 2,
        barAt 1706788800 3600 12 3]⟩).List.map barMonthKey).Nodup) := by
  refine ⟨⟨?_, ?_, ?_, ?_⟩, ⟨?_, ?_, ?_, ?_⟩⟩
  · unfold TimeOrdered; decide
  · decide!
  · decide!
  · decide!
  · unfold TimeOrdered; decide
  · decide!
  · decide!
  · decide!

/-- C4 (amended): on a daily series in non-decreasing time order whose bars are all read
at one fixed UTC offset and whose wall clocks lie in the span that the calendar of
`time.Time` covers without wrapping, `convertToMonthKline` returns as many bars as there
are distinct (year, month) keys among the input bars, and no two returned bars have the
same (year, month) key. -/
theorem C4_month_one_bar_per_bucket (r : KlineResp) (off : Int) (h : TimeOrdered r.List)
    (hz : FixedOffset off r.List) (hr : AllInRange r.List) :
    (convertToMonthKline r).List.length = (r.List.map barMonthKey).dedup.length ∧
    ((convertToMonthKline r).List.map barMonthKey).Nodup := by
  rw [convertToMonthKline_List]
  obtain ⟨hnd, hmem⟩ := resample_month_keys r.List off h hz hr
  refine ⟨?_, hnd⟩
  have hf : ((resample sameMonth r.List).map barMonthKey).toFinset =
      (r.List.map barMonthKey).toFinset := by
    ext x; simp only [List.mem_toFinset]; exact hmem x
  have hc := congrArg Finset.card hf
  rw [List.card_toFinset, List.card_toFinset, hnd.dedup, List.length_map] at hc
  exact hc

/-- Witness of C4: four ordered daily bars read eight hours east of UTC, at local
midnight of 2 January, 31 January, 1 February and 2 February 2024, give two monthly
bars. -/
theorem C4_month_one_bar_per_bucket_witness :
    TimeOrdered [barAt 1704124800 28800 10 1, barAt 1706630400 28800 11 2,
      barAt 1706716800 28800 12 3, barAt 1706803200 28800 13 4] ∧
    FixedOffset 28800 [barAt 1704124800 28800 10 1, barAt 1706630400 28800 11 2,
      barAt 1706716800 28800 12 3, barAt 1706803200 28800 13 4] ∧
    AllInRange [barAt 1704124800 28800 10 1, barAt 1706630400 28800 11 2,
      barAt 1706716800 28800 12 3, barAt 1706803200 28800 13 4] ∧
    (convertToMonthKline ⟨4, [barAt 1704124800 28800 10 1, barAt 1706630400 28800 11 2,
      barAt 1706716800 28800 12 3, barAt 1706803200 28800 13 4]⟩).List.length =
      ([barAt 1704124800 28800 10 1, barAt 1706630400 28800 11 2,
        barAt 1706716800 28800 12 3, barAt 1706803200 28800 13 4].map
        barMonthKey).dedup.length ∧
    ((convertToMonthKline ⟨4, [barAt 1704124800 28800 10 1, barAt 1706630400 28800 11 2,
      barAt 1706716800 28800 12 3, barAt 1706803200 28800 13 4]⟩).List.map
        barMonthKey).Nodup :=
  have h : TimeOrdered [barAt 1704124800 28800 10 1, barAt 1706630400 28800 11 2,
      barAt 1706716800 28800 12 3, barAt 1706803200 28800 13 4] := by
    unfold TimeOrdered; decide
  have hz : FixedOffset 28800 [barAt 1704124800 28800 10 1, barAt 1706630400 28800 11 2,
      barAt 1706716800 28800 12 3, barAt 1706803200 28800 13 4] := by
    unfold FixedOffset; decide
  have hr : AllInRange [barAt 1704124800 28800 10 1, barAt 1706630400 28800 11 2,
      barAt 1706716800 28800 12 3, barAt 1706803200 28800 13 4] := by
    unfold AllInRange Time.InRange; decide
  ⟨h, hz, hr, C4_month_one_bar_per_bucket ⟨4, _⟩ 28800 h hz hr⟩

/-- C5: in both resamplers the lows of the output bars are, run by run, the left fold
of `lowStep` over the lows of the run, seeded with the low of its first bar, where
`lowStep acc l` is `l` if `l < acc` or `acc = 0` and `acc` otherwise; the runs are those
that the bucket test of the loop cuts between adjacent bars. A bucket whose bars have the
lows 0 then 5 reports the low 5. -/
theorem C5_bucket_low_is_sentinel_fold :
    (∀ r : KlineResp, (convertToWeekKline r).List.map Kline.Low =
      (r.List.splitBy (fun a b => sameWeek a.Time b.Time)).map lowOfRun) ∧
    (∀ r : KlineResp, (convertToMonthKline r).List.map Kline.Low =
      (r.List.splitBy (fun a b => sameMonth a.Time b.Time)).map lowOfRun) ∧
    (∀ acc l : Int, lowStep acc l = if l < acc ∨ acc = 0 then l else acc) ∧
    (∀ k : Kline, ∀ ks : List Kline,
      lowOfRun (k :: ks) = (ks.map Kline.Low).foldl lowStep k.Low) ∧
    (∀ b1 b2 : Kline, lowOfRun [{ b1 with Low := 0 }, { b2 with Low := 5 }] = 5) ∧
    (convertToWeekKline ⟨2, [bar 19723 0 1, bar 19724 5 1]⟩).List.map Kline.Low = [5] ∧
    (convertToMonthKline ⟨2, [bar 19723 0 1, bar 19724 5 1]⟩).List.map Kline.Low = [5] := by
  have key : ∀ (same : Time → Time → Bool) (l : List Kline),
      (resample same l).map Kline.Low =
        (l.splitBy (fun a b => same a.Time b.Time)).map lowOfRun := by
    intro same l
    rw [resample_eq_splitBy, List.map_map]
    apply List.map_congr_left
    intro run hrun
    exact summarize_Low run (List.ne_nil_of_mem_splitBy _ hrun)
  refine ⟨?_, ?_, fun _ _ => rfl, fun _ _ => rfl, ?_, ?_, ?_⟩
  · intro r; rw [convertToWeekKline_List]; exact key _ _
  · intro r; rw [convertToMonthKline_List]; exact key _ _
  · intro b1 b2; simp [lowOfRun, lowStep]
  · decide!
  · decide!

/-- C6: on the stock-history path, when `getQfqKlineDay` delivers the series `resp`, the
types day, week and month return the tail trim to `limit` of `resp`, of its weekly
resampling and of its monthly resampling: a series longer than `limit` becomes its last
`limit` bars with count `limit`, any other series is returned unchanged. Any 100 bars
with limit 30 give the last 30 bars with count 30, any 20 bars with limit 30 give the
same 20 bars. -/
theorem C6_history_tail_trim (up : Upstream) (code : String) (limit : Nat) (resp : KlineResp)
    (hq : getQfqKlineDay up code = .ok resp) :
    (∃ out, klineHistory up code "day" limit = .ok out ∧ IsTailTrim resp out limit) ∧
    (∃ out, klineHistory up code "week" limit = .ok out ∧
      IsTailTrim (convertToWeekKline resp) out limit) ∧
    (∃ out, klineHistory up code "month" limit = .ok out ∧
      IsTailTrim (convertToMonthKline resp) out limit) ∧
    (∀ f : Nat → Kline, trimTail ⟨100, (List.range 100).map f⟩ 30 =
      ⟨30, (List.range' 70 30).map f⟩) ∧
    (∀ f : Nat → Kline, trimTail ⟨20, (List.range 20).map f⟩ 30 =
      ⟨20, (List.range 20).map f⟩) := by
  have key : ∀ s : KlineResp, IsTailTrim s (trimTail s limit) limit := by
    intro s
    unfold IsTailTrim trimTail
    constructor
    · intro h
      rw [if_pos h]
      refine ⟨rfl, ?_, s.List.take (s.List.length - limit), ?_⟩
      · simp only [List.length_drop]; omega
      · exact (List.take_append_drop _ _).symm
    · intro h
      rw [if_neg (by omega)]
  refine ⟨⟨_, ?_, key resp⟩, ⟨_, ?_, key _⟩, ⟨_, ?_, key _⟩, ?_, ?_⟩
  · simp [klineHistory, hq]
  · simp [klineHistory, hq]
  · simp [klineHistory, hq]
  · intro f
    have h : (List.range 100).drop 70 = List.range' 70 30 := by decide
    simp [trimTail, ← List.map_drop, h]
  · intro f
    simp [trimTail]

/-- Witness of C6: the primary source delivers 100 daily records and the limit is 30;
the day series that is returned has 30 bars and count 30. -/
theorem C6_history_tail_trim_witness :
    getQfqKlineDay (sampleUpstream (.ok (sampleRecords 100)) (.error "down")) "600000" =
      .ok ⟨100, qfqBars (Time.FixedZone 28800) none (sampleRecords 100)⟩ ∧
    ∃ out, klineHistory (sampleUpstream (.ok (sampleRecords 100)) (.error "down")) "600000"
      "day" 30 = .ok out ∧ out.Count = 30 ∧ out.List.length = 30 := by
  refine ⟨rfl, ?_⟩
  obtain ⟨out, h, ht⟩ := (C6_history_tail_trim
    (sampleUpstream (.ok (sampleRecords 100)) (.error "down")) "600000" 30
    ⟨100, qfqBars (Time.FixedZone 28800) none (sampleRecords 100)⟩ rfl).1
  have hlen : 30 < (qfqBars (Time.FixedZone 28800) none (sampleRecords 100)).length := by decide
  exact ⟨out, h, (ht.1 hlen).1, (ht.1 hlen).2.1⟩

/-- C7: on the index path, when the week (month) fetch delivers the series `resp`, the
types week and month return its head trim to `limit`: a series longer than `limit`
becomes its first `limit` bars with count `limit`, any other series is returned
unchanged. Any 100 bars with limit 30 give the first 30 bars with count 30. -/
theorem C7_index_head_trim (up : Upstream) (code : String) (limit : Nat) :
    (∀ resp, up.GetIndexWeekAll code = .ok resp →
      ∃ out, indexHistory up code "week" limit = .ok out ∧ IsHeadTrim resp out limit) ∧
    (∀ resp, up.GetIndexMonthAll code = .ok resp →
      ∃ out, indexHistory up code "month" limit = .ok out ∧ IsHeadTrim resp out limit) ∧
    (∀ f : Nat → Kline, trimHead ⟨100, (List.range 100).map f⟩ 30 =
      ⟨30, (List.range 30).map f⟩) := by
  have key : ∀ s : KlineResp, IsHeadTrim s (trimHead s limit) limit := by
    intro s
    unfold IsHeadTrim trimHead
    constructor
    · intro h
      rw [if_pos h]
      refine ⟨rfl, ?_, s.List.drop limit, ?_⟩
      · simp only [List.length_take]; omega
      · exact (List.take_append_drop _ _).symm
    · intro h
      rw [if_neg (by omega)]
  refine ⟨fun resp h => ⟨_, ?_, key resp⟩, fun resp h => ⟨_, ?_, key resp⟩, ?_⟩
  · simp [indexHistory, h]
  · simp [indexHistory, h]
  · intro f
    have h : (List.range 100).take 30 = List.range 30 := by decide
    simp [trimHead, ← List.map_take, h]

/-- Witness of C7: the index week fetch delivers 100 bars and the limit is 30; the
returned series has 30 bars and count 30. -/
theorem C7_index_head_trim_witness :
    ∃ out, indexHistory
      (sampleUpstream (.error "down") (.ok ⟨100, qfqBars (Time.FixedZone 28800) none (sampleRecords 100)⟩))
      "000001" "week" 30 = .ok out ∧ out.Count = 30 ∧ out.List.length = 30 := by
  obtain ⟨out, h, ht⟩ := (C7_index_head_trim
    (sampleUpstream (.error "down") (.ok ⟨100, qfqBars (Time.FixedZone 28800) none (sampleRecords 100)⟩))
    "000001" 30).1 ⟨100, qfqBars (Time.FixedZone 28800) none (sampleRecords 100)⟩ rfl
  have hlen : 30 < (qfqBars (Time.FixedZone 28800) none (sampleRecords 100)).length := by decide
  exact ⟨out, h, (ht.1 hlen).1, (ht.1 hlen).2.1⟩

/-- C8 (counterexample): the string of twenty nines denotes a positive integer, yet the
effective limit is the default 100 and not the minimum of that integer and 800. -/
theorem C8_limit_huge_number_counterexample :
    decimalValue "99999999999999999999" = some 99999999999999999999 ∧
    (0 : Int) < 99999999999999999999 ∧
    parseLimit "99999999999999999999" = 100 ∧
    (parseLimit "99999999999999999999" : Int) ≠ min 99999999999999999999 800 := by
  refine ⟨?_, ?_, ?_, ?_⟩ <;> decide

/-- C8 (amended): for every limit string the effective limit lies in `[1, 800]`; it is
100 when the string is empty, denotes no decimal integer, denotes a non-positive integer,
or denotes an integer above the largest `int`; it is `min n 800` when the string denotes
a positive integer `n` that fits the `int` type. -/
theorem C8_limit_parsing (s : String) :
    (1 ≤ parseLimit s ∧ parseLimit s ≤ 800) ∧
    (s = "" → parseLimit s = 100) ∧
    (decimalValue s = none → parseLimit s = 100) ∧
    (∀ n, decimalValue s = some n → n ≤ 0 → parseLimit s = 100) ∧
    (∀ n, decimalValue s = some n → 0 < n → n ≤ 9223372036854775807 →
      (parseLimit s : Int) = min n 800) ∧
    (∀ n, decimalValue s = some n → 9223372036854775807 < n → parseLimit s = 100) := by
  by_cases hs : s = ""
  · subst hs
    have h0 : parseLimit "" = 100 := by decide
    have hd : decimalValue "" = none := by decide
    rw [h0, hd]
    simp
  · have hp : parseLimit s = match Atoi s with
        | .ok l => if l > 0 then toUint16 (if l > 800 then 800 else l).toNat else 100
        | .error _ => 100 := by
      simp only [parseLimit, ne_eq, hs, not_false_eq_true, if_true]
      rfl
    rw [hp]
    clear hp
    unfold Atoi
    cases hd : decimalValue s with
    | none => simp [hs]
    | some v =>
      simp only [Option.some.injEq, forall_eq', hs, false_implies, true_and, reduceCtorEq]
      split_ifs with hr
      · simp only []
        refine ⟨by omega, ?_, ?_, ?_⟩
        · intro _; trivial
        · intro h1 h2; omega
        · intro _; trivial
      · simp only []
        unfold toUint16
        split_ifs with h1 h2
        · simp; omega
        · have hv : 0 ≤ v := by omega
          lift v to ℕ using hv
          simp only [Int.toNat_ofNat]
          have hm : v % 65536 = v := Nat.mod_eq_of_lt (by omega)
          rw [hm]
          refine ⟨?_, ?_, ?_, ?_⟩
          · omega
          · intro h; omega
          · intro _ _; rw [min_def]; split_ifs <;> omega
          · intro h; omega
        · refine ⟨by omega, ?_, ?_, ?_⟩
          · intro _; trivial
          · intro h; omega
          · intro h; omega

/-- Witness of C8: "5000" denotes 5000 and gives 800, "30" gives 30, "-3" and "abc" give
100. -/
theorem C8_limit_parsing_witness :
    decimalValue "5000" = some 5000 ∧ (parseLimit "5000" : Int) = min 5000 800 ∧
    decimalValue "-3" = some (-3) ∧ parseLimit "-3" = 100 ∧
    decimalValue "abc" = none ∧ parseLimit "abc" = 100 ∧
    parseLimit "" = 100 :=
  ⟨by decide, (C8_limit_parsing "5000").2.2.2.2.1 5000 (by decide) (by decide) (by decide),
   by decide, (C8_limit_parsing "-3").2.2.2.1 (-3) (by decide) (by decide),
   by decide, (C8_limit_parsing "abc").2.2.1 (by decide),
   (C8_limit_parsing "").2.1 rfl⟩

/-- C9: when the primary (front-adjusted) source delivers a daily series of any length
and the limit is at most 800, the series that `handleGetKlineHistory` computes for the
types day, week and month has at most `limit` bars, and its 16-bit count equals the
length of its bar list. -/
theorem C9_history_count_matches_length (up : Upstream) (code : String) (limit : Nat)
    (klines : List THSKline) (hp : up.GetTHSDayKline code = .ok klines) (h : limit ≤ 800) :
    (∃ out, klineHistory up code "day" limit = .ok out ∧ out.List.length ≤ limit ∧
      out.Count = out.List.length) ∧
    (∃ out, klineHistory up code "week" limit = .ok out ∧ out.List.length ≤ limit ∧
      out.Count = out.List.length) ∧
    (∃ out, klineHistory up code "month" limit = .ok out ∧ out.List.length ≤ limit ∧
      out.Count = out.List.length) := by
  have hq : getQfqKlineDay up code =
      .ok ⟨toUint16 klines.length, qfqBars up.Local none klines⟩ := by
    simp [getQfqKlineDay, hp]
  have hs : (⟨toUint16 klines.length, qfqBars up.Local none klines⟩ : KlineResp).Count =
      toUint16 (⟨toUint16 klines.length, qfqBars up.Local none klines⟩ : KlineResp).List.length := by
    simp [qfqBars_length]
  refine ⟨⟨_, ?_, trimTail_sync _ limit hs h⟩,
    ⟨_, ?_, trimTail_sync _ limit (convertToWeekKline_sync _ hs) h⟩,
    ⟨_, ?_, trimTail_sync _ limit (convertToMonthKline_sync _ hs) h⟩⟩
  · simp [klineHistory, hq]
  · simp [klineHistory, hq]
  · simp [klineHistory, hq]

/-- Witness of C9: the primary source delivers 100 daily records and the limit is 30. -/
theorem C9_history_count_matches_length_witness :
    ∃ out, klineHistory (sampleUpstream (.ok (sampleRecords 100)) (.error "down")) "600000"
      "week" 30 = .ok out ∧ out.List.length ≤ 30 ∧ out.Count = out.List.length :=
  (C9_history_count_matches_length (sampleUpstream (.ok (sampleRecords 100)) (.error "down"))
    "600000" 30 (sampleRecords 100) rfl (by decide)).2.1

/-- C10: when the primary source fails, `getQfqKlineDay` returns exactly the outcome of
`client.GetKlineDay(code, 0, 800)`, whatever the primary error was; and `getQfqKlineDay`
fails if and only if both the primary source and that fallback fetch fail. -/
theorem C10_adjustment_fallback (up : Upstream) (code : String) :
    (∀ e, up.GetTHSDayKline code = .error e →
      getQfqKlineDay up code = up.GetKlineDay code 0 800) ∧
    ((∃ e, getQfqKlineDay up code = .error e) ↔
      ((∃ e1, up.GetTHSDayKline code = .error e1) ∧
        ∃ e2, up.GetKlineDay code 0 800 = .error e2)) := by
  constructor
  · intro e he
    simp [getQfqKlineDay, he]
  · cases hp : up.GetTHSDayKline code with
    | error e1 =>
      have hq : getQfqKlineDay up code = up.GetKlineDay code 0 800 := by
        simp [getQfqKlineDay, hp]
      rw [hq]
      constructor
      · intro h2; exact ⟨⟨e1, rfl⟩, h2⟩
      · intro h2; exact h2.2
    | ok klines =>
      have hq : getQfqKlineDay up code =
          .ok ⟨toUint16 klines.length, qfqBars up.Local none klines⟩ := by
        simp [getQfqKlineDay, hp]
      rw [hq]
      constructor
      · rintro ⟨e, he⟩; cases he
      · rintro ⟨⟨e1, he1⟩, -⟩; cases he1

/-- Witness of C10: the primary source fails with "ths down" and the unadjusted fetch
delivers a series; that series is returned and no error is reported. -/
theorem C10_adjustment_fallback_witness :
    getQfqKlineDay (sampleUpstream (.error "ths down") (.ok ⟨1, [bar 19723 10 1]⟩)) "600000" =
      .ok ⟨1, [bar 19723 10 1]⟩ :=
  (C10_adjustment_fallback (sampleUpstream (.error "ths down") (.ok ⟨1, [bar 19723 10 1]⟩))
    "600000").1 "ths down" rfl

/-! ## Claims C11 to C19 -/

theorem qfqBars_getElem (loc : Location) (prev : Option THSKline) (ks : List THSKline)
    (i : Nat) (k : THSKline) (hk : ks[i]? = some k) :
    ∃ b, (qfqBars loc prev ks)[i]? = some b ∧ b.Time = Time.Unix loc k.Date ∧
      b.Open = k.Open ∧
      b.High = k.High ∧ b.Low = k.Low ∧ b.Close = k.Close ∧ b.Volume = k.Volume ∧
      b.Amount = k.Amount ∧
      (i = 0 → b.Last = match prev with
        | some p => p.Close
        | none => 0) ∧
      (∀ p, 0 < i → ks[i - 1]? = some p → b.Last = p.Close) := by
  induction ks generalizing prev i with
  | nil => simp at hk
  | cons k0 ks ih =>
    cases i with
    | zero =>
      simp only [List.getElem?_cons_zero, Option.some.injEq] at hk
      subst hk
      simp [qfqBars]
    | succ j =>
      simp only [List.getElem?_cons_succ] at hk
      obtain ⟨b, hb, h1, h2, h3, h4, h5, h6, h7, h8, h9⟩ := ih (some k0) j hk
      refine ⟨b, by simp only [qfqBars, List.getElem?_cons_succ, hb], h1, h2, h3, h4, h5, h6, h7,
        fun h => absurd h (Nat.succ_ne_zero j), ?_⟩
      intro p _ hp
      simp only [Nat.add_sub_cancel] at hp
      cases j with
      | zero =>
        simp only [List.getElem?_cons_zero, Option.some.injEq] at hp
        subst hp
        exact h8 rfl
      | succ j2 =>
        simp only [List.getElem?_cons_succ] at hp
        exact h9 p (Nat.succ_pos j2) (by simpa using hp)

/-- C11: on the primary path `getQfqKlineDay` returns as many bars as there are
front-adjusted records, in the same order; bar `i` has the time (`time.Unix` of the date
of the record, in the local zone), open, high, low, close,
volume and amount of record `i`; bar 0 has prior close 0 and every later bar `i` has as
prior close the close of record `i - 1`. -/
theorem C11_prior_close_synthesis (up : Upstream) (code : String) (klines : List THSKline)
    (hp : up.GetTHSDayKline code = .ok klines) :
    ∃ resp, getQfqKlineDay up code = .ok resp ∧ resp.List.length = klines.length ∧
      ∀ i k, klines[i]? = some k →
        ∃ b, resp.List[i]? = some b ∧ b.Time = Time.Unix up.Local k.Date ∧ b.Open = k.Open ∧
          b.High = k.High ∧ b.Low = k.Low ∧ b.Close = k.Close ∧ b.Volume = k.Volume ∧
          b.Amount = k.Amount ∧ (i = 0 → b.Last = 0) ∧
          (∀ p, 0 < i → klines[i - 1]? = some p → b.Last = p.Close) := by
  refine ⟨⟨toUint16 klines.length, qfqBars up.Local none klines⟩, ?_, qfqBars_length _ _ _, ?_⟩
  · simp [getQfqKlineDay, hp]
  · intro i k hk
    exact qfqBars_getElem up.Local none klines i k hk

/-- Witness of C11: three records with the closes 11, 21 and 31 give three bars with the
prior closes 0, 11 and 21. -/
theorem C11_prior_close_synthesis_witness :
    ∃ resp, getQfqKlineDay (sampleUpstream
        (.ok [⟨86400, 10, 12, 9, 11, 1, 10⟩, ⟨172800, 20, 22, 19, 21, 2, 20⟩,
          ⟨259200, 30, 32, 29, 31, 3, 30⟩]) (.error "down")) "600000" = .ok resp ∧
      resp.List.length = 3 ∧ resp.List.map Kline.Last = [0, 11, 21] := by
  obtain ⟨resp, h, hl, -⟩ := C11_prior_close_synthesis (sampleUpstream
    (.ok [⟨86400, 10, 12, 9, 11, 1, 10⟩, ⟨172800, 20, 22, 19, 21, 2, 20⟩,
      ⟨259200, 30, 32, 29, 31, 3, 30⟩]) (.error "down")) "600000" _ rfl
  refine ⟨resp, h, hl, ?_⟩
  have h2 : Except.ok resp = (Except.ok ⟨3, qfqBars (Time.FixedZone 28800) none [⟨86400, 10, 12, 9, 11, 1, 10⟩,
      ⟨172800, 20, 22, 19, 21, 2, 20⟩, ⟨259200, 30, 32, 29, 31, 3, 30⟩]⟩ :
        Except Error KlineResp) := h.symm.trans rfl
  cases h2
  rfl

theorem resampleFrom_snoc_length (same : Time → Time → Bool) (cur : Kline) (ks : List Kline)
    (b : Kline) :
    (resampleFrom same cur ks).length ≤ (resampleFrom same cur (ks ++ [b])).length ∧
    (resampleFrom same cur (ks ++ [b])).length ≤ (resampleFrom same cur ks).length + 1 := by
  induction ks generalizing cur with
  | nil =>
    simp only [List.nil_append, resampleFrom]
    split_ifs <;> simp [resampleFrom]
  | cons k ks ih =>
    simp only [List.cons_append, resampleFrom]
    split_ifs
    · exact ih _
    · have := ih (newBucket k)
      simp only [List.length_cons, List.append_eq] at this ⊢
      omega

theorem resample_snoc_length (same : Time → Time → Bool) (xs : List Kline) (b : Kline) :
    (resample same xs).length ≤ (resample same (xs ++ [b])).length ∧
    (resample same (xs ++ [b])).length ≤ (resample same xs).length + 1 := by
  cases xs with
  | nil => simp [resample, resampleFrom]
  | cons k ks => exact resampleFrom_snoc_length same k ks b

/-- C14: for every series `xs` and every bar `b`, `convertToWeekKline` returns for
`xs ++ [b]` at least as many bars as for `xs` and at most one more; the same holds for
`convertToMonthKline`. -/
theorem C14_bucket_count_monotone (c c2 : Nat) (xs : List Kline) (b : Kline) :
    ((convertToWeekKline ⟨c, xs⟩).List.length ≤
        (convertToWeekKline ⟨c2, xs ++ [b]⟩).List.length ∧
      (convertToWeekKline ⟨c2, xs ++ [b]⟩).List.length ≤
        (convertToWeekKline ⟨c, xs⟩).List.length + 1) ∧
    ((convertToMonthKline ⟨c, xs⟩).List.length ≤
        (convertToMonthKline ⟨c2, xs ++ [b]⟩).List.length ∧
      (convertToMonthKline ⟨c2, xs ++ [b]⟩).List.length ≤
        (convertToMonthKline ⟨c, xs⟩).List.length + 1) := by
  simp only [convertToWeekKline_List, convertToMonthKline_List]
  exact ⟨resample_snoc_length _ xs b, resample_snoc_length _ xs b⟩

/-- C15: for a series of a single daily bar `convertToWeekKline` returns exactly one
bar, with count 1, and that bar has the time, prior close, open, high, low, close, volume
and amount of the input bar. -/
theorem C15_single_bar_week (c : Nat) (k : Kline) :
    convertToWeekKline ⟨c, [k]⟩ = ⟨1, [k]⟩ ∧
    ∃ b, (convertToWeekKline ⟨c, [k]⟩).List = [b] ∧ (convertToWeekKline ⟨c, [k]⟩).Count = 1 ∧
      b.Time = k.Time ∧ b.Last = k.Last ∧ b.Open = k.Open ∧ b.High = k.High ∧ b.Low = k.Low ∧
      b.Close = k.Close ∧ b.Volume = k.Volume ∧ b.Amount = k.Amount := by
  have h : convertToWeekKline ⟨c, [k]⟩ = ⟨1, [k]⟩ := by
    rw [convertToWeekKline_cons]; rfl
  refine ⟨h, k, ?_⟩
  rw [h]
  exact ⟨rfl, rfl, rfl, rfl, rfl, rfl, rfl, rfl, rfl, rfl⟩

theorem contains_iff {α : Type} [DecidableEq α] (s substr : List α) :
    contains s substr = true ↔ ∃ p q, s = p ++ substr ++ q := by
  unfold contains
  simp only [List.any_eq_true, List.mem_range, decide_eq_true_eq]
  constructor
  · rintro ⟨i, -, h⟩
    refine ⟨s.take i, s.drop (i + substr.length), ?_⟩
    generalize substr.length = n at h ⊢
    unfold slice at h
    have h1 : s.take (i + n) = s.take i ++ substr := by
      have h2 := (List.take_append_drop i (s.take (i + n))).symm
      rw [h, List.take_take, Nat.min_eq_left (Nat.le_add_right i n)] at h2
      exact h2
    calc s = s.take (i + n) ++ s.drop (i + n) := (List.take_append_drop _ _).symm
      _ = s.take i ++ substr ++ s.drop (i + n) := by rw [h1]
  · rintro ⟨p, q, rfl⟩
    refine ⟨p.length, ?_, ?_⟩
    · simp only [List.length_append]
      omega
    · unfold slice
      have h1 : (p ++ substr ++ q).take (p.length + substr.length) = p ++ substr := by
        rw [← List.length_append]
        exact List.take_left' rfl
      rw [h1]
      exact List.drop_left' rfl

/-- C13: `contains s substr` is true exactly when `substr` occurs in `s` as a contiguous
block of bytes, `s = p ++ substr ++ q`, compared exactly; it is true for the empty
`substr`, false when `substr` is longer than `s`, and false for "ABC" and "abc". -/
theorem C13_contains_is_exact_substring {α : Type} [DecidableEq α] (s substr : List α) :
    (contains s substr = true ↔ ∃ p q, s = p ++ substr ++ q) ∧
    contains s [] = true ∧
    (s.length < substr.length → contains s substr = false) ∧
    contains (ascii "ABC") (ascii "abc") = false ∧
    contains (ascii "ABC") (ascii "BC") = true := by
  refine ⟨contains_iff s substr, ?_, ?_, ?_, ?_⟩
  · exact (contains_iff s []).2 ⟨[], s, rfl⟩
  · intro h
    cases hc : contains s substr with
    | false => rfl
    | true =>
      obtain ⟨p, q, hpq⟩ := (contains_iff s substr).1 hc
      have := congrArg List.length hpq
      simp only [List.length_append] at this
      omega
  · decide
  · decide

/-- Witness of C13: "ABC" is longer than "AB", so `contains` of "AB" and "ABC" is
false. -/
theorem C13_contains_is_exact_substring_witness :
    (ascii "AB").length < (ascii "ABC").length ∧ contains (ascii "AB") (ascii "ABC") = false :=
  ⟨by decide, (C13_contains_is_exact_substring (ascii "AB") (ascii "ABC")).2.2.1 (by decide)⟩

theorem searchPartition_cons {P : Type} (src : Listing P) (keyword : GoString)
    (hk : keyword ≠ []) (codes : List SearchHit) (v : Code P) (vs : List (Code P)) :
    searchPartition src keyword codes (v :: vs) =
      if (if isHit src keyword v = true then codes ++ [⟨v.Code, v.Name⟩] else codes).length ≥ 50
      then (if isHit src keyword v = true then codes ++ [⟨v.Code, v.Name⟩] else codes)
      else searchPartition src keyword
        (if isHit src keyword v = true then codes ++ [⟨v.Code, v.Name⟩] else codes) vs := by
  have hlen : keyword.length > 0 := List.length_pos.2 hk
  cases h1 : src.IsStock v.Code <;>
    cases h2 : (contains v.Code keyword || contains v.Name keyword) <;>
    simp [searchPartition, isHit, h1, h2, hlen]

/-- The inner loop keeps the first 50 of the entries it had and the hits it meets. -/
theorem searchPartition_eq {P : Type} (src : Listing P) (keyword : GoString)
    (hk : keyword ≠ []) (codes : List SearchHit) (vs : List (Code P))
    (hc : codes.length < 50) :
    searchPartition src keyword codes vs =
      (codes ++ (vs.filter (isHit src keyword)).map
        (fun v => (⟨v.Code, v.Name⟩ : SearchHit))).take 50 := by
  induction vs generalizing codes with
  | nil =>
    simp only [searchPartition, List.filter_nil, List.map_nil, List.append_nil]
    exact (List.take_of_length_le (by omega)).symm
  | cons v vs ih =>
    rw [searchPartition_cons src keyword hk]
    by_cases hv : isHit src keyword v = true
    · simp only [hv, if_true, List.filter_cons_of_pos, List.map_cons]
      have e : codes ++ (⟨v.Code, v.Name⟩ : SearchHit) ::
          (vs.filter (isHit src keyword)).map (fun v => (⟨v.Code, v.Name⟩ : SearchHit)) =
          (codes ++ [⟨v.Code, v.Name⟩]) ++
            (vs.filter (isHit src keyword)).map
              (fun v => (⟨v.Code, v.Name⟩ : SearchHit)) := by simp
      rw [e]
      split_ifs with h50
      · have hl : (codes ++ [(⟨v.Code, v.Name⟩ : SearchHit)]).length = 50 := by
          simp only [List.length_append, List.length_singleton] at h50 ⊢; omega
        exact (List.take_left' hl).symm
      · exact ih _ (by omega)
    · have hf : isHit src keyword v = false := by simpa using hv
      simp only [hf, Bool.false_eq_true, if_false, ge_iff_le]
      rw [if_neg (by omega), List.filter_cons_of_neg (by simp [hf])]
      exact ih codes hc

/-- The outer loop keeps the first 50 of the entries it had and the hits of the
exchanges it visits, in their order. -/
theorem searchExchanges_eq {P : Type} (src : Listing P) (keyword : GoString)
    (hk : keyword ≠ []) (codes : List SearchHit) (exs : List Exchange)
    (hc : codes.length < 50) :
    searchExchanges src keyword codes exs =
      (codes ++ (exs.map (hitsOf src keyword)).flatten).take 50 := by
  induction exs generalizing codes with
  | nil =>
    simp only [searchExchanges, List.map_nil, List.flatten_nil, List.append_nil]
    exact (List.take_of_length_le (by omega)).symm
  | cons ex exs ih =>
    simp only [searchExchanges, List.map_cons, List.flatten_cons]
    cases hg : src.GetCodeAll ex with
    | error e =>
      simp only [hitsOf, hg, List.nil_append]
      exact ih codes hc
    | ok list =>
      have hh : hitsOf src keyword ex =
          (list.filter (isHit src keyword)).map (fun v => ⟨v.Code, v.Name⟩) := by
        simp only [hitsOf, hg]
      simp only [searchPartition_eq src keyword hk codes list hc, ← hh, ← List.append_assoc]
      split_ifs with h50
      · have hl : 50 ≤ (codes ++ hitsOf src keyword ex).length := by
          simp only [List.length_take] at h50; omega
        exact (List.take_append_of_le_length hl).symm
      · simp only [List.length_take] at h50
        have hlt : (codes ++ hitsOf src keyword ex).length < 50 := by omega
        rw [List.take_of_length_le (by omega)]
        exact ih _ hlt

/-- C12: for a non-empty keyword `handleSearchCode` returns the first 50 entries (all of
them if there are fewer) of the hits of the SH listing, then of the SZ listing, then of
the BJ listing, where the hits of a listing are its entries that are stocks and whose
code or name contains the keyword, and a listing whose fetch fails has none. So the
result has at most 50 entries, exactly 50 when there are at least 50 hits, and once the
hits of the first listings reach 50 the later listings add nothing. -/
theorem C12_search_cap {P : Type} (src : Listing P) (keyword : GoString) (hk : keyword ≠ []) :
    ∃ codes, handleSearchCode src keyword = .success codes ∧
      codes = (hitsOf src keyword .SH ++ hitsOf src keyword .SZ ++
        hitsOf src keyword .BJ).take 50 ∧
      codes.length ≤ 50 ∧
      (50 ≤ (hitsOf src keyword .SH ++ hitsOf src keyword .SZ ++
        hitsOf src keyword .BJ).length → codes.length = 50) ∧
      (50 ≤ (hitsOf src keyword .SH).length → codes = (hitsOf src keyword .SH).take 50) ∧
      (50 ≤ (hitsOf src keyword .SH ++ hitsOf src keyword .SZ).length →
        codes = (hitsOf src keyword .SH ++ hitsOf src keyword .SZ).take 50) := by
  have h := searchExchanges_eq src keyword hk [] [.SH, .SZ, .BJ] (by decide)
  simp only [List.nil_append, List.map_cons, List.map_nil, List.flatten_cons, List.flatten_nil,
    List.append_nil, ← List.append_assoc] at h
  refine ⟨_, ?_, h, ?_, ?_, ?_, ?_⟩
  · simp only [handleSearchCode, if_neg hk]
  · rw [h, List.length_take]; omega
  · intro h50; rw [h, List.length_take]; omega
  · intro h50
    rw [h, List.append_assoc, List.take_append_of_le_length h50]
  · intro h50
    rw [h, List.take_append_of_le_length h50]

/-- Witness of C12: with the keyword "6" the sample source has 60 hits in SH, and the
search returns 50 entries. -/
theorem C12_search_cap_witness :
    ascii "6" ≠ [] ∧
    ∃ codes, handleSearchCode sampleListing (ascii "6") = .success codes ∧
      codes.length = 50 := by
  obtain ⟨codes, h, -, -, h50, -, -⟩ := C12_search_cap sampleListing (ascii "6") (by decide)
  exact ⟨by decide, codes, h, h50 (by decide!)⟩

theorem tally_fold {P : Type} (src : Listing P) (t : Tally) (list : List (Code P)) :
    (list.foldl (tallyStep src) t).Total =
        t.Total + (list.filter (fun c => src.IsStock c.Code)).length ∧
    (list.foldl (tallyStep src) t).Up + (list.foldl (tallyStep src) t).Down +
        (list.foldl (tallyStep src) t).Flat + t.Total =
      (list.foldl (tallyStep src) t).Total + (t.Up + t.Down + t.Flat) := by
  induction list generalizing t with
  | nil => simp only [List.foldl_nil, List.filter_nil, List.length_nil]; omega
  | cons c cs ih =>
    simp only [List.foldl_cons]
    obtain ⟨h1, h2⟩ := ih (tallyStep src t c)
    rw [h1]
    rw [h1] at h2
    cases hs : src.IsStock c.Code with
    | false =>
      have e : tallyStep src t c = t := by simp [tallyStep, hs]
      rw [e] at h2 ⊢
      simp only [hs, Bool.false_eq_true, not_false_eq_true, List.filter_cons_of_neg]
      exact ⟨trivial, h2⟩
    | true =>
      have e1 : (tallyStep src t c).Total = t.Total + 1 := by
        simp only [tallyStep, hs]; split_ifs <;> simp_all
      have e2 : (tallyStep src t c).Up + (tallyStep src t c).Down + (tallyStep src t c).Flat =
          t.Up + t.Down + t.Flat + 1 := by
        simp only [tallyStep, hs]; split_ifs <;> simp_all <;> omega
      simp only [hs, List.filter_cons_of_pos, List.length_cons]
      constructor
      · omega
      · omega

/-- C16: for every exchange the up, down and flat counts that `handleGetMarketStats`
reports sum to the reported total; the total is the number of entries of the listing of
that exchange that are stocks; and an exchange whose fetch fails reports four zeros. -/
theorem C16_market_stats_sum {P : Type} (src : Listing P) (ex : Exchange) :
    ((handleGetMarketStats src).of ex).Up + ((handleGetMarketStats src).of ex).Down +
        ((handleGetMarketStats src).of ex).Flat = ((handleGetMarketStats src).of ex).Total ∧
    (match src.GetCodeAll ex with
      | .ok list => ((handleGetMarketStats src).of ex).Total =
          (list.filter (fun c => src.IsStock c.Code)).length
      | .error _ => (handleGetMarketStats src).of ex = ⟨0, 0, 0, 0⟩) := by
  have key : ∀ list : List (Code P),
      (list.foldl (tallyStep src) ⟨0, 0, 0, 0⟩).Up + (list.foldl (tallyStep src) ⟨0, 0, 0, 0⟩).Down +
        (list.foldl (tallyStep src) ⟨0, 0, 0, 0⟩).Flat =
        (list.foldl (tallyStep src) ⟨0, 0, 0, 0⟩).Total ∧
      (list.foldl (tallyStep src) ⟨0, 0, 0, 0⟩).Total =
        (list.filter (fun c => src.IsStock c.Code)).length := by
    intro list
    obtain ⟨h1, h2⟩ := tally_fold src ⟨0, 0, 0, 0⟩ list
    simp only [Nat.zero_add, Nat.add_zero] at h1 h2
    exact ⟨h2, h1⟩
  cases ex <;>
    cases h1 : src.GetCodeAll .SH <;> cases h2 : src.GetCodeAll .SZ <;>
    cases h3 : src.GetCodeAll .BJ <;>
    simp [handleGetMarketStats, statsStep, MarketStats.of, h1, h2, h3, key]

/-- C17: a POST request whose decoded list has more than 50 codes gets a failure
response and `client.GetQuote` is not called; `client.GetQuote` is called exactly when
the method is POST, the body decodes and the list has between 1 and 50 codes, and then
it is called once, with that list. A list of 51 codes is rejected without a call. -/
theorem C17_batch_quote_validation {Q : Type} (GetQuote : List String → Except Error Q)
    (r : BatchRequest) :
    (∀ codes, r.Method = "POST" → r.Body = .ok codes → 50 < codes.length →
      (handleBatchQuote GetQuote r).1.isFailure = true ∧ (handleBatchQuote GetQuote r).2 = []) ∧
    ((handleBatchQuote GetQuote r).2 ≠ [] ↔
      (r.Method = "POST" ∧ ∃ codes, r.Body = .ok codes ∧ 1 ≤ codes.length ∧
        codes.length ≤ 50)) ∧
    (∀ codes, r.Method = "POST" → r.Body = .ok codes → 1 ≤ codes.length →
      codes.length ≤ 50 → (handleBatchQuote GetQuote r).2 = [codes]) ∧
    ((handleBatchQuote GetQuote ⟨"POST", .ok (List.replicate 51 "600000")⟩).1.isFailure = true ∧
      (handleBatchQuote GetQuote ⟨"POST", .ok (List.replicate 51 "600000")⟩).2 = []) := by
  obtain ⟨m, body⟩ := r
  refine ⟨?_, ?_, ?_, ?_⟩
  · intro codes hm hb hl
    simp only at hm hb
    subst hm hb
    have h0 : codes.length ≠ 0 := by omega
    simp [handleBatchQuote, h0, hl, Reply.isFailure]
  · by_cases hm : m = "POST"
    · subst hm
      cases body with
      | error e => simp [handleBatchQuote]
      | ok codes =>
        by_cases h0 : codes.length = 0
        · simp [handleBatchQuote, h0]
        · by_cases h50 : codes.length > 50
          · simp only [handleBatchQuote, ne_eq, not_true_eq_false, if_false, h0, h50, if_true,
              not_true_eq_false, false_iff, true_and, not_exists, not_and]
            intro c hc; cases hc; omega
          · have h1 : 1 ≤ codes.length := by omega
            have h2 : codes.length ≤ 50 := by omega
            cases hq : GetQuote codes <;>
              simp [handleBatchQuote, h0, h50, hq, h1, h2]
    · simp [handleBatchQuote, hm]
  · intro codes hm hb h1 h50
    simp only at hm hb
    subst hm hb
    have h0 : codes.length ≠ 0 := by omega
    have h2 : ¬ codes.length > 50 := by omega
    cases hq : GetQuote codes <;> simp [handleBatchQuote, h0, h2, hq]
  · constructor <;> simp [handleBatchQuote, Reply.isFailure]

/-- Witness of C17: a POST request with 51 codes against a quote source that always
answers is rejected, and the quote source is not called. -/
theorem C17_batch_quote_validation_witness :
    (handleBatchQuote (fun codes => (Except.ok codes.length : Except Error Nat))
      ⟨"POST", .ok (List.replicate 51 "600000")⟩).1.isFailure = true ∧
    (handleBatchQuote (fun codes => (Except.ok codes.length : Except Error Nat))
      ⟨"POST", .ok (List.replicate 51 "600000")⟩).2 = [] :=
  (C17_batch_quote_validation (fun codes => (Except.ok codes.length : Except Error Nat))
    ⟨"POST", .ok (List.replicate 51 "600000")⟩).1 (List.replicate 51 "600000") rfl rfl
    (by decide)

/-! ## Idempotence of the monthly resampling -/

theorem resampleFrom_month_head (cur : Kline) (ks : List Kline) :
    ∃ h t, resampleFrom sameMonth cur ks = h :: t ∧ monthKey h.Time = monthKey cur.Time := by
  induction ks generalizing cur with
  | nil => exact ⟨cur, [], rfl, rfl⟩
  | cons k ks ih =>
    simp only [resampleFrom]
    by_cases hs : sameMonth cur.Time k.Time = true
    · obtain ⟨h, t, e, hk⟩ := ih (accumulate cur k)
      refine ⟨h, t, by simp only [hs, if_true, e], ?_⟩
      rw [hk, accumulate_Time]
      exact (of_decide_eq_true hs).symm
    · have hf : sameMonth cur.Time k.Time = false := by simpa using hs
      exact ⟨cur, resampleFrom sameMonth (newBucket k) ks,
        by simp only [hf, Bool.false_eq_true, if_false], rfl⟩

/-- Adjacent bars of the monthly output have different month keys. -/
theorem resampleFrom_month_chain (cur : Kline) (ks : List Kline) :
    List.Chain' (fun a b : Kline => sameMonth a.Time b.Time = false)
      (resampleFrom sameMonth cur ks) := by
  induction ks generalizing cur with
  | nil => exact List.chain'_singleton _
  | cons k ks ih =>
    simp only [resampleFrom]
    by_cases hs : sameMonth cur.Time k.Time = true
    · simp only [hs, if_true]
      exact ih _
    · have hf : sameMonth cur.Time k.Time = false := by simpa using hs
      simp only [hf, Bool.false_eq_true, if_false, newBucket_eq]
      obtain ⟨h, t, e, hk⟩ := resampleFrom_month_head k ks
      have hc := ih k
      rw [e] at hc ⊢
      refine List.Chain'.cons ?_ hc
      unfold sameMonth at hf ⊢
      rw [hk]
      exact hf

/-- A series whose adjacent bars fail the bucket test is returned bar by bar. -/
theorem resampleFrom_fixed (same : Time → Time → Bool) (cur : Kline) (ks : List Kline)
    (h : List.Chain (fun a b : Kline => same a.Time b.Time = false) cur ks) :
    resampleFrom same cur ks = cur :: ks := by
  induction ks generalizing cur with
  | nil => rfl
  | cons k ks ih =>
    rw [List.chain_cons] at h
    simp only [resampleFrom, h.1, Bool.false_eq_true, if_false, newBucket_eq, ih k h.2]

/-- C19: `convertToMonthKline` applied to its own output returns that output: the same
count and the same bars, for every series, ordered or not. -/
theorem C19_month_idempotent (r : KlineResp) :
    convertToMonthKline (convertToMonthKline r) = convertToMonthKline r := by
  obtain ⟨c, l⟩ := r
  cases l with
  | nil => rfl
  | cons k ks =>
    rw [convertToMonthKline_cons]
    obtain ⟨h, t, e, -⟩ := resampleFrom_month_head k ks
    have hc := resampleFrom_month_chain k ks
    rw [e] at hc ⊢
    rw [convertToMonthKline_cons, resampleFrom_fixed sameMonth h t hc]

/-! ## The summary of a run -/

theorem foldl_accumulate_fields (c : Kline) (ks : List Kline) :
    (ks.foldl accumulate c).Open = c.Open ∧ (ks.foldl accumulate c).Last = c.Last ∧
    (ks.foldl accumulate c).Close = ((c :: ks).getLast (List.cons_ne_nil c ks)).Close ∧
    (ks.foldl accumulate c).Time = ((c :: ks).getLast (List.cons_ne_nil c ks)).Time ∧
    (ks.foldl accumulate c).High = (ks.map Kline.High).foldl max c.High ∧
    (ks.foldl accumulate c).Volume =
      (ks.map Kline.Volume).foldl (fun acc v => wrap64 (acc + v)) c.Volume ∧
    (ks.foldl accumulate c).Amount =
      (ks.map Kline.Amount).foldl (fun acc v => wrap64 (acc + v)) c.Amount := by
  induction ks generalizing c with
  | nil => simp
  | cons k ks ih =>
    obtain ⟨h1, h2, h3, h4, h5, h6, h7⟩ := ih (accumulate c k)
    simp only [List.foldl_cons, List.map_cons, List.getLast_cons_cons]
    refine ⟨by rw [h1, accumulate_Open], by rw [h2, accumulate_Last], ?_, ?_,
      by rw [h5, accumulate_High], by rw [h6, accumulate_Volume],
      by rw [h7, accumulate_Amount]⟩
    · rw [h3]
      cases ks with
      | nil => rfl
      | cons x xs => simp only [List.getLast_cons_cons]
    · rw [h4]
      cases ks with
      | nil => rfl
      | cons x xs => simp only [List.getLast_cons_cons]

/-- The bars of `convertToMonthKline` are the summaries of the maximal runs of adjacent
bars with one month key: the runs concatenate to the input, adjacent bars of a run have
equal keys, and the last bar of a run and the first bar of the next have different keys.
The summary of a run has the open and prior close of its first bar, the close and time of
its last bar, the maximum of its highs, and the wrapped sums of its volumes and amounts. -/
theorem month_bars_summarize_maximal_runs (r : KlineResp) :
    (convertToMonthKline r).List =
      (r.List.splitBy (fun a b => sameMonth a.Time b.Time)).map summarize ∧
    (r.List.splitBy (fun a b => sameMonth a.Time b.Time)).flatten = r.List ∧
    (∀ run ∈ r.List.splitBy (fun a b => sameMonth a.Time b.Time),
      run ≠ [] ∧ run.Chain' (fun a b => barMonthKey a = barMonthKey b)) ∧
    (r.List.splitBy (fun a b => sameMonth a.Time b.Time)).Chain'
      (fun g1 g2 => ∃ h1 h2, barMonthKey (g1.getLast h1) ≠ barMonthKey (g2.head h2)) ∧
    (∀ k ks, (summarize (k :: ks)).Open = k.Open ∧ (summarize (k :: ks)).Last = k.Last ∧
      (summarize (k :: ks)).Close = ((k :: ks).getLast (List.cons_ne_nil k ks)).Close ∧
      (summarize (k :: ks)).Time = ((k :: ks).getLast (List.cons_ne_nil k ks)).Time ∧
      (summarize (k :: ks)).High = (ks.map Kline.High).foldl max k.High ∧
      (summarize (k :: ks)).Volume =
        (ks.map Kline.Volume).foldl (fun acc v => wrap64 (acc + v)) k.Volume ∧
      (summarize (k :: ks)).Amount =
        (ks.map Kline.Amount).foldl (fun acc v => wrap64 (acc + v)) k.Amount) := by
  refine ⟨?_, List.flatten_splitBy _ _, ?_, ?_, ?_⟩
  · rw [convertToMonthKline_List, resample_eq_splitBy]
  · intro run hrun
    refine ⟨List.ne_nil_of_mem_splitBy _ hrun, ?_⟩
    refine List.Chain'.imp ?_ (List.chain'_of_mem_splitBy hrun)
    intro a b hab
    exact of_decide_eq_true hab
  · refine List.Chain'.imp ?_ (List.chain'_getLast_head_splitBy _ r.List)
    rintro g1 g2 ⟨h1, h2, hf⟩
    refine ⟨h1, h2, ?_⟩
    intro e
    have : sameMonth (g1.getLast h1).Time (g2.head h2).Time = true := decide_eq_true e
    rw [this] at hf
    cases hf
  · intro k ks
    exact foldl_accumulate_fields (newBucket k) ks

/-- C18 (code bug): the bars of 2024-12-30 and 2024-12-31 are adjacent and lie in the one
ISO week (2025, 1), so they are one maximal run of one bucket; `convertToWeekKline`
returns each of them as a bar of its own, where the summary of the run has the open of
the first bar, the close and time of the second, the high 11 and the volume 3.
`convertToMonthKline` returns that summary for the same two bars. -/
theorem C18_week_runs_cut_at_year_boundary :
    isoKey (bar 20087 10 1) = isoKey (bar 20088 11 2) ∧
    (convertToWeekKline ⟨2, [bar 20087 10 1, bar 20088 11 2]⟩).List =
      [bar 20087 10 1, bar 20088 11 2] ∧
    (convertToMonthKline ⟨2, [bar 20087 10 1, bar 20088 11 2]⟩).List =
      [{ Last := 0, Open := 10, High := 11, Low := 10, Close := 11, Volume := 3, Amount := 3,
         Time := (bar 20088 11 2).Time }] := by
  refine ⟨?_, ?_, ?_⟩
  · decide
  · decide!
  · decide!

end TdxApi
